import Mathlib

/-!
Verification development for the tapered-capsule pipeline
(`coacd_capsule_pipeline.py`, `capsule_skinning.py`, `minizinc_to_gltf.py`).

Python floating-point arithmetic is modelled over the exact reals `ℝ` for the
geometric code (which uses `math.sqrt`, `math.cos`, `math.sin`, `math.acos`),
and over the exact rationals `ℚ` for the purely arithmetic code (weight
transfer, smoothing, colour generation, result decoding), so that concrete
instances can be settled by `decide`/`norm_num`.
-/

namespace Capsule

/-- 3D vector (a NumPy length-3 array of floats, modelled over `ℝ`). -/
abbrev V3 : Type := ℝ × ℝ × ℝ

/-- Dot product of two 3D vectors (`np.dot` on length-3 arrays). -/
def dot3 (a b : V3) : ℝ := a.1 * b.1 + a.2.1 * b.2.1 + a.2.2 * b.2.2

/-- Squared Euclidean norm of a 3D vector. -/
def sqNorm3 (a : V3) : ℝ := dot3 a a

/-- Euclidean norm of a 3D vector (`np.linalg.norm`). -/
noncomputable def norm3 (a : V3) : ℝ := Real.sqrt (sqNorm3 a)

/-- Euclidean distance between two 3D points. -/
noncomputable def dist3 (a b : V3) : ℝ := norm3 (a - b)

/-- Componentwise clamp (`np.clip(x, lo, hi)`): `min (max x lo) hi`. -/
def clampR (x lo hi : ℝ) : ℝ := min (max x lo) hi

/-- Cross product of two 3D vectors, written out componentwise exactly as in
`calculate_swing_rotation` (src/minizinc_to_gltf.py). -/
def cross3 (a b : V3) : V3 :=
  (a.2.1 * b.2.2 - a.2.2 * b.2.1,
   a.2.2 * b.1 - a.1 * b.2.2,
   a.1 * b.2.1 - a.2.1 * b.1)

/-- 3×3 matrix represented as its three rows. -/
abbrev Mat3 : Type := V3 × V3 × V3

/-- Identity 3×3 matrix `[[1,0,0],[0,1,0],[0,0,1]]`. -/
def identity3 : Mat3 := ((1, 0, 0), (0, 1, 0), (0, 0, 1))

/-- Shallow embedding of `CoACDCapsulePipeline._point_in_tapered_capsule`
(src/coacd_capsule_pipeline.py, lines 474-508).  If the segment length is
below `1e-8` the capsule is treated as a sphere of radius
`max radius_top radius_bottom` centred at `p1`; otherwise the projection of
`point - p1` onto the unit axis is clamped to `[0, lineLen]`, the closest
point on the segment is formed, and the point is inside iff its distance to
that closest point is at most the radius interpolated at
`t = projectionLength / lineLen`. -/
noncomputable def pointInTaperedCapsule (point p1 p2 : V3)
    (radius_top radius_bottom : ℝ) : Prop :=
  let lineVec := p2 - p1
  let lineLen := norm3 lineVec
  if lineLen < 1e-8 then
    dist3 point p1 ≤ max radius_top radius_bottom
  else
    let lineUnit := (1 / lineLen) • lineVec
    let pointVec := point - p1
    let projectionLength := clampR (dot3 pointVec lineUnit) 0 lineLen
    let closestPoint := p1 + projectionLength • lineUnit
    let distanceToAxis := dist3 point closestPoint
    let t := if lineLen > 0 then projectionLength / lineLen else 0
    let currentRadius := radius_bottom + t * (radius_top - radius_bottom)
    distanceToAxis ≤ currentRadius

/-- The point-in-tapered-capsule contract exactly as the specification words
it: if `height < ε` the point is covered iff its distance to `p1` is at most
`max(radius_top, radius_bottom)`; otherwise, with
`t = clamp(dot(q - p1, axis), 0, height) / height` and
`r(t) = radius_bottom + t·(radius_top - radius_bottom)`, the point is covered
iff its distance to the closest point on the segment is at most `r(t)`. -/
noncomputable def specPointInTaperedCapsule (q p1 p2 : V3)
    (radius_top radius_bottom : ℝ) : Prop :=
  let height := norm3 (p2 - p1)
  if height < 1e-8 then
    dist3 q p1 ≤ max radius_top radius_bottom
  else
    let axis := (1 / height) • (p2 - p1)
    let proj := clampR (dot3 (q - p1) axis) 0 height
    let t := proj / height
    let rOfT := radius_bottom + t * (radius_top - radius_bottom)
    let closest := p1 + proj • axis
    dist3 q closest ≤ rOfT

/-- Helper axis chosen by the antiparallel branch of `calculate_swing_rotation`
(src/minizinc_to_gltf.py, lines 550-554): `+X` unless the `from` vector is
nearly on the X axis (`|from.x| ≥ 0.9`), in which case `+Y`. -/
noncomputable def swingHelperPerp (fromVec : V3) : V3 :=
  if |fromVec.1| < 0.9 then (1, 0, 0) else (0, 1, 0)

/-- Shallow embedding of `GLTFCapsuleGenerator.axis_angle_to_matrix`
(src/minizinc_to_gltf.py, lines 587-601): Rodrigues' rotation formula for
the matrix of the rotation about `axis` by `angle`. -/
noncomputable def axisAngleToMatrix (axis : V3) (angle : ℝ) : Mat3 :=
  let cosAngle := Real.cos angle
  let sinAngle := Real.sin angle
  let oneMinusCos := 1 - cosAngle
  let x := axis.1
  let y := axis.2.1
  let z := axis.2.2
  ((cosAngle + x * x * oneMinusCos, x * y * oneMinusCos - z * sinAngle,
      x * z * oneMinusCos + y * sinAngle),
   (y * x * oneMinusCos + z * sinAngle, cosAngle + y * y * oneMinusCos,
      y * z * oneMinusCos - x * sinAngle),
   (z * x * oneMinusCos - y * sinAngle, z * y * oneMinusCos + x * sinAngle,
      cosAngle + z * z * oneMinusCos))

/-- The closing section of `calculate_swing_rotation` (lines 568-585), which
both the general case and the fall-through of the antiparallel case reach:
axis = `from × to`; if its length is below `0.001` the identity is returned,
otherwise the Rodrigues matrix about the normalised axis by
`acos(max(-1, min(1, dot)))`. -/
noncomputable def swingGeneralCase (fromVec toVec : V3) (dotProduct : ℝ) : Mat3 :=
  let axis := cross3 fromVec toVec
  let axisLen := norm3 axis
  if axisLen < 0.001 then identity3
  else
    axisAngleToMatrix ((1 / axisLen) • axis)
      (Real.arccos (max (-1) (min 1 dotProduct)))

/-- Shallow embedding of `GLTFCapsuleGenerator.calculate_swing_rotation`
(src/minizinc_to_gltf.py, lines 530-585).  Inputs are normalised (with an
identity early-out for near-zero inputs); near-parallel unit vectors give the
identity; near-antiparallel ones give a 180° rotation about the normalised
cross product with the helper axis, falling through to the general case when
that axis is degenerate (exactly as the missing `else` in the source does);
otherwise the general Rodrigues case runs. -/
noncomputable def calculateSwingRotation (fromVector toVector : V3) : Mat3 :=
  let fromLen := norm3 fromVector
  let toLen := norm3 toVector
  if fromLen < 0.001 ∨ toLen < 0.001 then identity3
  else
    let fromVec := (1 / fromLen) • fromVector
    let toVec := (1 / toLen) • toVector
    let dotProduct := dot3 fromVec toVec
    if dotProduct > 0.9999 then identity3
    else if dotProduct < -0.9999 then
      let perp := swingHelperPerp fromVec
      let axis := cross3 fromVec perp
      let axisLen := norm3 axis
      if axisLen > 0.001 then axisAngleToMatrix ((1 / axisLen) • axis) Real.pi
      else swingGeneralCase fromVec toVec dotProduct
    else swingGeneralCase fromVec toVec dotProduct

/-- Number of rings along the tapered cylinder body
(`cylinder_rings = 8` in `generate_capsule_mesh`, src/minizinc_to_gltf.py). -/
def cylinderRings : ℕ := 8

/-- Position of the body vertex at ring `ring`, angular step `i` of
`generate_capsule_mesh` (lines 60-76): the ring parameter `t = ring / 8`
places the ring at `y = -length/2 + t·length` with radius
`radius1 + t·(radius2 - radius1)`. -/
noncomputable def bodyVertexPos (length radius1 radius2 : ℝ) (segments ring i : ℕ) : V3 :=
  let t : ℝ := (ring : ℝ) / (cylinderRings : ℝ)
  let yPos := -length / 2 + t * length
  let currentRadius := radius1 + t * (radius2 - radius1)
  let theta := (i : ℝ) * 2 * Real.pi / (segments : ℝ)
  (currentRadius * Real.cos theta, yPos, currentRadius * Real.sin theta)

/-- Normal of the body vertex at angular step `i` of `generate_capsule_mesh`
(lines 78-95): the radial direction `(cos θ, 0, sin θ)` tilted by the taper
slope `(radius2 - radius1) / length` in Y, then renormalised.  The loop
computes the same value for every ring, so the ring index does not appear. -/
noncomputable def bodyVertexNormal (length radius1 radius2 : ℝ) (segments i : ℕ) : V3 :=
  let theta := (i : ℝ) * 2 * Real.pi / (segments : ℝ)
  let radiusDiff := radius2 - radius1
  let slopeFactor := if length > 0 then radiusDiff / length else 0
  let nx := Real.cos theta
  let ny := slopeFactor
  let nz := Real.sin theta
  let normalLength := Real.sqrt (nx * nx + ny * ny + nz * nz)
  if normalLength > 0 then (nx / normalLength, ny / normalLength, nz / normalLength)
  else (nx, ny, nz)

/-- The point of the capsule's axis segment (the Y axis from `-length/2` to
`length/2`) closest to `p`; this is the reference point of the spec's
outward-normal property for body vertices. -/
noncomputable def closestAxisPoint (p : V3) (length : ℝ) : V3 :=
  (0, clampR p.2.1 (-(length / 2)) (length / 2), 0)

/-- Angle of angular step `i` out of `segments`
(`theta = i * 2 * math.pi / segments`). -/
noncomputable def thetaAngle (segments i : ℕ) : ℝ :=
  (i : ℝ) * 2 * Real.pi / (segments : ℝ)

/-- Latitude of ring `j` of the bottom hemisphere (lines 105-106):
`phi = -pi/2 + j * (pi/2) / hemisphere_segments`. -/
noncomputable def bottomPhi (hs j : ℕ) : ℝ :=
  -(Real.pi / 2) + (j : ℝ) * (Real.pi / 2) / (hs : ℝ)

/-- Latitude of ring `j` of the top hemisphere (line 125):
`phi = j * (pi/2) / hemisphere_segments`. -/
noncomputable def topPhi (hs j : ℕ) : ℝ :=
  (j : ℝ) * (Real.pi / 2) / (hs : ℝ)

/-- Flat position array of the cylinder body of `generate_capsule_mesh`
(lines 60-76): `cylinder_rings + 1` rings of `segments` vertices, three floats
per vertex. -/
noncomputable def bodyPositions (length radius1 radius2 : ℝ) (segments : ℕ) : List ℝ :=
  (List.range (cylinderRings + 1)).flatMap (fun ring =>
    (List.range segments).flatMap (fun i =>
      let p := bodyVertexPos length radius1 radius2 segments ring i
      [p.1, p.2.1, p.2.2]))

/-- Flat normal array of the cylinder body (lines 78-95), index-aligned with
`bodyPositions`. -/
noncomputable def bodyNormals (length radius1 radius2 : ℝ) (segments : ℕ) : List ℝ :=
  (List.range (cylinderRings + 1)).flatMap (fun _ring =>
    (List.range segments).flatMap (fun i =>
      let n := bodyVertexNormal length radius1 radius2 segments i
      [n.1, n.2.1, n.2.2]))

/-- Flat position array of a hemisphere of `generate_capsule_mesh`
(lines 105-140): rings `j = 1 .. hemisphere_segments` at latitude
`phiOf j`, each with `segments` vertices at radius `radius * cos phi` around
height `yBase + radius * sin phi`. -/
noncomputable def hemiPositions (yBase radius : ℝ) (segments hs : ℕ)
    (phiOf : ℕ → ℝ) : List ℝ :=
  (List.range hs).flatMap (fun j0 =>
    (List.range segments).flatMap (fun i =>
      [radius * Real.cos (phiOf (j0 + 1)) * Real.cos (thetaAngle segments i),
       yBase + radius * Real.sin (phiOf (j0 + 1)),
       radius * Real.cos (phiOf (j0 + 1)) * Real.sin (thetaAngle segments i)]))

/-- Flat normal array of a hemisphere (lines 117-121 and 136-140): the
outward radial direction of the sphere at that end. -/
noncomputable def hemiNormals (segments hs : ℕ) (phiOf : ℕ → ℝ) : List ℝ :=
  (List.range hs).flatMap (fun j0 =>
    (List.range segments).flatMap (fun i =>
      [Real.cos (phiOf (j0 + 1)) * Real.cos (thetaAngle segments i),
       Real.sin (phiOf (j0 + 1)),
       Real.cos (phiOf (j0 + 1)) * Real.sin (thetaAngle segments i)]))

/-- Triangle index list of `generate_capsule_mesh` (lines 147-237), emitted
in source order: body quads, bottom-cap fan, body-to-bottom-hemisphere
stitching, bottom-hemisphere internal rings, body-to-top-hemisphere
stitching, top-hemisphere internal rings, top-cap fan. -/
def capsuleIndices (segments : ℕ) : List ℕ :=
  let hemisphereSegments := segments / 2
  let body := (List.range cylinderRings).flatMap (fun ring =>
    (List.range segments).flatMap (fun i =>
      let nexti := (i + 1) % segments
      let currRingStart := ring * segments
      let nextRingStart := (ring + 1) * segments
      [currRingStart + i, nextRingStart + i, currRingStart + nexti,
       currRingStart + nexti, nextRingStart + i, nextRingStart + nexti]))
  let baseCylinder := (cylinderRings + 1) * segments
  let bottomCenterIdx := baseCylinder
  let bottomHemisphereStart := bottomCenterIdx + 1
  let bottomFan := (List.range segments).flatMap (fun i =>
    let nexti := (i + 1) % segments
    [bottomCenterIdx, bottomHemisphereStart + nexti, bottomHemisphereStart + i])
  let bottomHemisphereLastRing :=
    bottomHemisphereStart + (hemisphereSegments - 1) * segments
  let bottomStitch := (List.range segments).flatMap (fun i =>
    let nexti := (i + 1) % segments
    [0 + i, bottomHemisphereLastRing + i, 0 + nexti,
     0 + nexti, bottomHemisphereLastRing + i, bottomHemisphereLastRing + nexti])
  let bottomInternal := (List.range (hemisphereSegments - 1)).flatMap (fun j =>
    (List.range segments).flatMap (fun i =>
      let nexti := (i + 1) % segments
      let currRing := bottomHemisphereStart + j * segments
      let nextRing := bottomHemisphereStart + (j + 1) * segments
      [currRing + i, nextRing + i, currRing + nexti,
       currRing + nexti, nextRing + i, nextRing + nexti]))
  let topHemisphereStart := bottomHemisphereStart + hemisphereSegments * segments
  let topCenterIdx := topHemisphereStart + hemisphereSegments * segments
  let cylinderTopRing := cylinderRings * segments
  let topStitch := (List.range segments).flatMap (fun i =>
    let nexti := (i + 1) % segments
    [cylinderTopRing + i, topHemisphereStart + nexti, topHemisphereStart + i,
     cylinderTopRing + i, cylinderTopRing + nexti, topHemisphereStart + nexti])
  let topInternal := (List.range (hemisphereSegments - 1)).flatMap (fun j =>
    (List.range segments).flatMap (fun i =>
      let nexti := (i + 1) % segments
      let currRing := topHemisphereStart + j * segments
      let nextRing := topHemisphereStart + (j + 1) * segments
      [currRing + i, nextRing + i, currRing + nexti,
       currRing + nexti, nextRing + i, nextRing + nexti]))
  let topHemisphereLastRing := topHemisphereStart + (hemisphereSegments - 1) * segments
  let topFan := (List.range segments).flatMap (fun i =>
    let nexti := (i + 1) % segments
    [topHemisphereLastRing + i, topCenterIdx, topHemisphereLastRing + nexti])
  body ++ bottomFan ++ bottomStitch ++ bottomInternal ++ topStitch ++ topInternal
    ++ topFan

/-- The flat arrays returned by `generate_capsule_mesh`: vertex positions,
normals, and triangle indices. -/
structure MeshData where
  vertices : List ℝ
  normals : List ℝ
  indices : List ℕ

/-- Shallow embedding of `GLTFCapsuleGenerator.generate_capsule_mesh`
(src/minizinc_to_gltf.py, lines 49-246): body rings, bottom cap centre,
bottom hemisphere, top hemisphere and top cap centre, emitted in source
order, with the triangle index list of `capsuleIndices`. -/
noncomputable def generateCapsuleMesh (length radius1 radius2 : ℝ)
    (segments : ℕ) : MeshData :=
  let hs := segments / 2
  { vertices :=
      bodyPositions length radius1 radius2 segments
        ++ [0, -length / 2, 0]
        ++ hemiPositions (-length / 2) radius1 segments hs (bottomPhi hs)
        ++ hemiPositions (length / 2) radius2 segments hs (topPhi hs)
        ++ [0, length / 2, 0],
    normals :=
      bodyNormals length radius1 radius2 segments
        ++ [0, -1, 0]
        ++ hemiNormals segments hs (bottomPhi hs)
        ++ hemiNormals segments hs (topPhi hs)
        ++ [0, 1, 0],
    indices := capsuleIndices segments }

/-- 3D point over `ℚ`, used for the arithmetic-only code paths of
`capsule_skinning.py`. -/
abbrev Q3 : Type := ℚ × ℚ × ℚ

/-- Squared Euclidean distance between two points.  `scipy.spatial.cdist`
computes Euclidean distances; since the square root is strictly monotone, the
nearest-vertex search picks exactly the same (first) minimiser over squared
distances, which keeps the embedding inside `ℚ`. -/
def sqDistQ (a b : Q3) : ℚ :=
  (a.1 - b.1)^2 + (a.2.1 - b.2.1)^2 + (a.2.2 - b.2.2)^2

/-- Index of the first occurrence of the minimum (`np.argmin`): the head wins
ties against the tail. -/
def argminIdx {α : Type} [LinearOrder α] : List α → ℕ
  | [] => 0
  | x :: xs =>
    let r := argminIdx xs
    if x ≤ xs.getD r x then 0 else r + 1

/-- Index of the first occurrence of the maximum (`np.argmax`). -/
def argmaxIdx {α : Type} [LinearOrder α] : List α → ℕ
  | [] => 0
  | x :: xs =>
    let r := argmaxIdx xs
    if xs.getD r x ≤ x then 0 else r + 1

/-- Insert index `i` into an index list kept ascending by the values of `w`. -/
def insertIdxAsc (w : List ℚ) (i : ℕ) : List ℕ → List ℕ
  | [] => [i]
  | j :: js => if w.getD i 0 ≤ w.getD j 0 then i :: j :: js else j :: insertIdxAsc w i js

/-- Ascending argsort of `w` by insertion sort.  `np.argsort` uses an
unstable quicksort whose tie order is unspecified; all properties proved
below are invariant under the tie order, so one definite permutation is
fixed here. -/
def argsortAsc (w : List ℚ) : List ℕ := (List.range w.length).foldr (insertIdxAsc w) []

/-- Descending argsort, `np.argsort(...)[::-1]` of
`transfer_weights_closest_point` (src/capsule_skinning.py, line 71). -/
def argsortDesc (w : List ℚ) : List ℕ := (argsortAsc w).reverse

/-- Maximum number of bone influences per vertex (`max_influences = 4`). -/
def maxInfluences : ℕ := 4

/-- Weight slots of one capsule vertex after the transfer loop of
`transfer_weights_closest_point` (lines 61-76): slot `j < min(4, len)` holds
the `j`-th largest source weight when it exceeds `0.001`, all other slots
hold the initial zero. -/
def transferRowWeights (ow : List ℚ) : List ℚ :=
  let order := argsortDesc ow
  (List.range maxInfluences).map (fun j =>
    if j < order.length then
      (if ow.getD (order.getD j 0) 0 > 1/1000 then ow.getD (order.getD j 0) 0 else 0)
    else 0)

/-- Bone-index slots filled alongside `transferRowWeights` (line 76). -/
def transferRowIndices (ow : List ℚ) (oi : List ℤ) : List ℤ :=
  let order := argsortDesc ow
  (List.range maxInfluences).map (fun j =>
    if j < order.length then
      (if ow.getD (order.getD j 0) 0 > 1/1000 then oi.getD (order.getD j 0) 0 else 0)
    else 0)

/-- Row normalisation of `transfer_weights_closest_point` (lines 78-81) and of
the smoothing loops: divide by `max(row_sum, 1e-10)`. -/
def normalizeRow (row : List ℚ) : List ℚ :=
  let rowSum := row.sum
  let safeSum := max rowSum (1 / 10000000000)
  row.map (fun w => w / safeSum)

/-- Clamp every entry of a row to `[0, 1]` (`np.clip(w, 0.0, 1.0)`). -/
def clipRow (row : List ℚ) : List ℚ := row.map (fun w => min (max w 0) 1)

/-- Post-processing of `smooth_weights_robust_laplacian`
(src/capsule_skinning.py, lines 121-128) applied to the rows returned by the
external `robust_laplacian`/`spsolve` solve: each row is first normalised by
`max(row_sum, 1e-10)` (lines 122-125) and only afterwards clamped to
`[0, 1]` (line 128). -/
def robustLaplacianPost (solved : List (List ℚ)) : List (List ℚ) :=
  solved.map (fun row => clipRow (normalizeRow row))

/-- Index of the nearest original vertex for one capsule vertex
(`np.argmin(cdist(...), axis=1)`, lines 57-58). -/
def closestIdx (cv : Q3) (origVertices : List Q3) : ℕ :=
  argminIdx (origVertices.map (fun ov => sqDistQ cv ov))

/-- Shallow embedding of
`CapsuleSkinningSystem.transfer_weights_closest_point`
(src/capsule_skinning.py, lines 32-83): per capsule vertex, copy the up-to-4
largest weights of the nearest source vertex that exceed `0.001`, then
normalise each row by `max(sum, 1e-10)`. -/
def transferWeightsClosestPoint (capsuleVertices origVertices : List Q3)
    (origBoneWeights : List (List ℚ)) (origBoneIndices : List (List ℤ)) :
    List (List ℚ) × List (List ℤ) :=
  (capsuleVertices.map (fun cv =>
      normalizeRow (transferRowWeights
        (origBoneWeights.getD (closestIdx cv origVertices) []))),
   capsuleVertices.map (fun cv =>
      transferRowIndices (origBoneWeights.getD (closestIdx cv origVertices) [])
        (origBoneIndices.getD (closestIdx cv origVertices) [])))

/-- Neighbours contributed by one triangle to vertex `v`: the values of the
other two slots for every slot holding `v` (`_smooth_weights_simple`,
lines 158-163). -/
def faceNeighborLists (f : ℕ × ℕ × ℕ) (v : ℕ) : List ℕ :=
  (if f.1 = v then [f.2.1, f.2.2] else [])
    ++ (if f.2.1 = v then [f.1, f.2.2] else [])
    ++ (if f.2.2 = v then [f.1, f.2.1] else [])

/-- The adjacency set of vertex `v` (a Python `set`; `dedup` models the set,
and every use below is invariant under element order). -/
def adjacencyList (faces : List (ℕ × ℕ × ℕ)) (v : ℕ) : List ℕ :=
  (faces.flatMap (fun f => faceNeighborLists f v)).dedup

/-- Componentwise sum of two weight rows. -/
def addRows (a b : List ℚ) : List ℚ := List.zipWith (· + ·) a b

/-- Componentwise scalar multiple of a weight row. -/
def scaleRow (c : ℚ) (row : List ℚ) : List ℚ := row.map (fun w => c * w)

/-- Componentwise sum of a list of weight rows. -/
def sumRows (rows : List (List ℚ)) : List ℚ :=
  rows.foldr addRows (List.replicate maxInfluences 0)

/-- Componentwise mean of neighbour rows (`np.mean(..., axis=0)`, line 172). -/
def meanRows (rows : List (List ℚ)) : List ℚ :=
  scaleRow (1 / (rows.length : ℚ)) (sumRows rows)

/-- One iteration of `_smooth_weights_simple` (lines 166-178): blend each row
with the mean of its neighbours (`0.7·w + 0.3·mean`, rows without neighbours
unchanged), then normalise every row.  The loop index runs over the weight
rows; every call site passes one weight row per capsule vertex. -/
def smoothStep (faces : List (ℕ × ℕ × ℕ)) (weights : List (List ℚ)) :
    List (List ℚ) :=
  let blended := (List.range weights.length).map (fun i =>
    let nbrs := adjacencyList faces i
    if 0 < nbrs.length then
      addRows (scaleRow (7/10) (weights.getD i []))
        (scaleRow (3/10) (meanRows (nbrs.map (fun j => weights.getD j []))))
    else weights.getD i [])
  blended.map normalizeRow

/-- Shallow embedding of `CapsuleSkinningSystem._smooth_weights_simple`
(src/capsule_skinning.py, lines 137-180): the adjacency is built once from
the triangle list and `iterations` smoothing passes run. -/
def smoothWeightsSimple (capsuleVertices : List Q3) (faces : List (ℕ × ℕ × ℕ))
    (initialWeights : List (List ℚ)) (iterations : ℕ) : List (List ℚ) :=
  (smoothStep faces)^[iterations] initialWeights

/-- Shallow embedding of
`CapsuleSkinningSystem.transfer_and_smooth_capsule_weights`
(src/capsule_skinning.py, lines 374-416): transfer, then apply the smoothing
function `smoothing_iterations` times.  The smoothing call
(`smooth_weights_robust_laplacian`) depends on the external
`robust_laplacian`/`scipy` solvers, so it enters here as the abstract
function parameter `smoothFn`. -/
def transferAndSmoothCapsuleWeights
    (smoothFn : List (List ℚ) → List (List ℚ))
    (capsuleVertices origVertices : List Q3)
    (origBoneWeights : List (List ℚ)) (origBoneIndices : List (List ℤ))
    (smoothingIterations : ℕ) : List (List ℚ) × List (List ℤ) :=
  let tr := transferWeightsClosestPoint capsuleVertices origVertices
    origBoneWeights origBoneIndices
  (smoothFn^[smoothingIterations] tr.1, tr.2)

/-- The per-row weight invariant of the spec: exactly 4 slots, unit sum, and
every weight in `[0, 1]`. -/
def goodRow (row : List ℚ) : Prop :=
  row.length = maxInfluences ∧ row.sum = 1 ∧ ∀ x ∈ row, 0 ≤ x ∧ x ≤ 1

/-- Decoded numeric payload of one solver-result line of
`parse_minizinc_output`: position components, length and the two radii. -/
structure CapsuleLineData where
  px : ℚ
  py : ℚ
  pz : ℚ
  len : ℚ
  radius1 : ℚ
  radius2 : ℚ
  deriving DecidableEq

/-- Scale-factor determination of `parse_minizinc_output`
(src/minizinc_to_gltf.py, lines 664-673): a manual scale overrides;
otherwise the factor is 1000 exactly when the output carries the
`Integer scaling: 1000x` marker, else 1. -/
def determineScaleFactor (manualScale : Option ℚ) (hasScalingMarker : Bool) : ℚ :=
  match manualScale with
  | some s => s
  | none => if hasScalingMarker then 1000 else 1

/-- Numeric decoding of one matched solver-result line of
`parse_minizinc_output` (lines 723-730 and 751-758): when the scale factor
exceeds 1, position components, length and both radii are divided by it,
otherwise they are taken verbatim. -/
def decodeCapsuleLine (scaleFactor px py pz ln r1 r2 : ℚ) : CapsuleLineData :=
  if scaleFactor > 1 then
    { px := px / scaleFactor, py := py / scaleFactor, pz := pz / scaleFactor,
      len := ln / scaleFactor, radius1 := r1 / scaleFactor, radius2 := r2 / scaleFactor }
  else
    { px := px, py := py, pz := pz, len := ln, radius1 := r1, radius2 := r2 }

/-- Insert into a list kept ascending (the sorting step underlying
`np.percentile`, which sorts its input). -/
def insertAsc {α : Type} [LinearOrder α] (x : α) : List α → List α
  | [] => [x]
  | y :: ys => if x ≤ y then x :: y :: ys else y :: insertAsc x ys

/-- Ascending sort by insertion. -/
def sortAsc {α : Type} [LinearOrder α] (l : List α) : List α := l.foldr insertAsc []

/-- `np.percentile(l, 90)` with the default linear interpolation: the virtual
index is `0.9·(n-1)` (held here as `pos` in tenths), and the result
interpolates between the two neighbouring order statistics. -/
noncomputable def percentile90 (l : List ℝ) : ℝ :=
  let s := sortAsc l
  let pos := 9 * (l.length - 1)
  let k := pos / 10
  let fr : ℝ := ((pos % 10 : ℕ) : ℝ) / 10
  s.getD k 0 + fr * (s.getD (k + 1) (s.getD k 0) - s.getD k 0)

/-- The capsule parameters produced for one hull by
`generate_candidate_capsules` (src/coacd_capsule_pipeline.py, lines 313-397). -/
structure FittedCapsule where
  center : V3
  p1 : V3
  p2 : V3
  height : ℝ
  radius_top : ℝ
  radius_bottom : ℝ

/-- Endpoint selection of `generate_candidate_capsules` (lines 327-333):
`p1`/`p2` are the hull vertices at the first minimal and first maximal
projection onto the principal axis (`np.argmin`/`np.argmax`). -/
noncomputable def fitEndpoints (vertices : List V3) (axis : V3) : V3 × V3 :=
  let projections := vertices.map (fun v => dot3 v axis)
  (vertices.getD (argminIdx projections) (0, 0, 0),
   vertices.getD (argmaxIdx projections) (0, 0, 0))

/-- Axis direction of `generate_candidate_capsules` (line 341):
`(p2 - p1)/height`, or the `[0, 1, 0]` fallback for a zero height. -/
noncomputable def fitDirection (vertices : List V3) (axis : V3) : V3 :=
  let p := fitEndpoints vertices axis
  let height := norm3 (p.2 - p.1)
  if height > 0 then (1 / height) • (p.2 - p.1) else (0, 1, 0)

/-- Per-vertex distances of `generate_candidate_capsules` (lines 344-354):
distance from each vertex to its projection onto the infinite line through
`p1` along `direction`; the projection parameter is NOT clamped to the
segment. -/
noncomputable def lineDistances (vertices : List V3) (p1 direction : V3) : List ℝ :=
  vertices.map (fun v =>
    let toVertex := v - p1
    let projectionLength := dot3 toVertex direction
    let closestPoint := p1 + projectionLength • direction
    norm3 (v - closestPoint))

/-- The distances the specification describes instead: perpendicular distance
to the segment, with the projection parameter clamped to `[0, height]`. -/
noncomputable def segmentDistances (vertices : List V3) (p1 direction : V3)
    (height : ℝ) : List ℝ :=
  vertices.map (fun v =>
    let proj := clampR (dot3 (v - p1) direction) 0 height
    norm3 (v - (p1 + proj • direction)))

/-- Shallow embedding of the per-hull fitting of
`generate_candidate_capsules` (lines 320-390).  The principal axis is
computed by the external `sklearn` PCA and enters as the parameter `axis`.
Both radii are set to the same expression,
`np.percentile(distances, 90)` (lines 358-359). -/
noncomputable def fitCapsuleFromHull (vertices : List V3) (axis : V3) : FittedCapsule :=
  let p := fitEndpoints vertices axis
  let height := norm3 (p.2 - p.1)
  let r := percentile90 (lineDistances vertices p.1 (fitDirection vertices axis))
  { center := (1/2 : ℝ) • (p.1 + p.2), p1 := p.1, p2 := p.2, height := height,
    radius_top := r, radius_bottom := r }

/-- The per-hull outcome of the `generate_candidate_capsules` loop body: the
external `sklearn` `PCA(n_components=3).fit` raises for fewer than 3 samples
(its documented contract), the surrounding `try/except` catches this and
skips the hull; for 3 or more points a capsule is emitted.  There is no
other rejection path: no `InsufficientGeometry` condition exists anywhere in
the source. -/
noncomputable def generateCandidateCapsule (vertices : List V3) (principalAxis : V3) :
    Option FittedCapsule :=
  if vertices.length < 3 then none
  else some (fitCapsuleFromHull vertices principalAxis)

/-- `i` is the first index of a minimal element of `l`: it is in range, its
value is a lower bound, and every earlier value is strictly larger. -/
def isFirstMinIdx (l : List ℝ) (i : ℕ) : Prop :=
  i < l.length ∧ (∀ j < l.length, l.getD i 0 ≤ l.getD j 0)
    ∧ ∀ j < i, l.getD i 0 < l.getD j 0

/-- `i` is the first index of a maximal element of `l`. -/
def isFirstMaxIdx (l : List ℝ) (i : ℕ) : Prop :=
  i < l.length ∧ (∀ j < l.length, l.getD j 0 ≤ l.getD i 0)
    ∧ ∀ j < i, l.getD j 0 < l.getD i 0

/-- Componentwise sum of a point list. -/
noncomputable def sumV3 (pts : List V3) : V3 := pts.foldr (· + ·) (0, 0, 0)

/-- Componentwise mean of a point list (the centering step of PCA). -/
noncomputable def meanV3 (pts : List V3) : V3 := (1 / (pts.length : ℝ)) • sumV3 pts

/-- Total squared projection of the centred points onto a direction `u`.  The
first principal component returned by the external
`sklearn.decomposition.PCA(n_components=3).fit` (its documented contract) is
a unit vector maximising this quantity; its sign is unspecified. -/
noncomputable def projVariance (pts : List V3) (u : V3) : ℝ :=
  (pts.map (fun p => dot3 (p - meanV3 pts) u ^ 2)).sum

/-- Concrete 9-point cluster (all `z = 0`) separating line distances from
segment distances.  Its centred scatter matrix is exactly diagonal
(`Σ(x-x̄)(y-ȳ) = 0`) with the `x`-variance strictly dominant, so the
principal axis is exactly `±(1, 0, 0)`.  The third point projects negatively
onto the fitted direction `(p2-p1)/height = (4/5, 3/5, 0)`, so clamping
changes its distance, and that distance carries interpolation weight in the
9-element 90th percentile. -/
noncomputable def c8pts : List V3 :=
  [(0, 0, 0), (4, 3, 0), (7/10, -12/5, 0), (37/10, 1/10, 0), (7/2, 2/5, 0),
   (1/5, 497/180, 0), (1/2, 21/10, 0), (19/5, 23/36, 0), (1/5, 12/5, 0)]

/-- The four visualisation mode strings accepted by
`generate_vertex_colors` (src/capsule_skinning.py, lines 202-232), as an
enumeration. -/
inductive ColorMode where
  | boneVisualization
  | weightStrength
  | dominantBoneStrength
  | boneCount
  deriving DecidableEq

/-- Python float modulo for a positive modulus: `x - y*floor(x/y)`
(the `% 360` of the golden-angle hue stepping). -/
def pyFloatMod (x y : ℚ) : ℚ := x - y * ⌊x / y⌋

/-- Python `int()` truncation toward zero. -/
def pyTrunc (x : ℚ) : ℤ := if 0 ≤ x then ⌊x⌋ else -⌊-x⌋

/-- Shallow embedding of `CapsuleSkinningSystem._hsv_to_rgb` (lines
250-273). -/
def hsvToRgb (h s v : ℚ) : ℚ × ℚ × ℚ :=
  let i0 := pyTrunc (h * 6)
  let f := h * 6 - (i0 : ℚ)
  let p := v * (1 - s)
  let q := v * (1 - s * f)
  let t := v * (1 - s * (1 - f))
  let i := i0 % 6
  if i = 0 then (v, t, p)
  else if i = 1 then (q, v, p)
  else if i = 2 then (p, v, t)
  else if i = 3 then (p, q, v)
  else if i = 4 then (t, p, v)
  else (v, p, q)

/-- Shallow embedding of `_generate_distinct_colors` (lines 236-248):
golden-angle hue stepping `hue = (i*137.508) % 360` with alternating
saturation and value. -/
def generateDistinctColors (nColors : ℕ) : List (ℚ × ℚ × ℚ) :=
  (List.range nColors).map (fun (i : ℕ) =>
    let hue := pyFloatMod ((i : ℚ) * (137508 / 1000)) 360
    let saturation := 7/10 + 3/10 * (Nat.cast (i % 2) : ℚ)
    let value := 8/10 + 2/10 * (Nat.cast ((i / 2) % 2) : ℚ)
    hsvToRgb (hue / 360) saturation value)

/-- `np.min` of a list (`np.min` raises on an empty array; 0 stands in for
that unreachable case). -/
def listMinQ : List ℚ → ℚ
  | [] => 0
  | x :: xs => xs.foldl min x

/-- `np.max` of a list, with the same convention as `listMinQ`. -/
def listMaxQ : List ℚ → ℚ
  | [] => 0
  | x :: xs => xs.foldl max x

/-- Shallow embedding of `_heat_map_colors` (lines 275-306): min-max
normalisation followed by the five-stop blue-cyan-green-yellow-red
gradient. -/
def heatMapColors (values : List ℚ) : List (ℚ × ℚ × ℚ) :=
  let minVal := listMinQ values
  let maxVal := listMaxQ values
  let normalized := if maxVal > minVal
    then values.map (fun v => (v - minVal) / (maxVal - minVal))
    else values.map (fun _ => 0)
  normalized.map (fun val =>
    if val < 1/4 then (0, val / (1/4), 1)
    else if val < 1/2 then (0, 1, 1 - (val - 1/4) / (1/4))
    else if val < 3/4 then ((val - 1/2) / (1/4), 1, 0)
    else (1, 1 - (val - 3/4) / (1/4), 0))

/-- The flattened masked selection `bone_indices[bone_weights > 0.001]`
(line 204), in row-major order. -/
def maskedIndices (w : List (List ℚ)) (idx : List (List ℤ)) : List ℤ :=
  (w.zip idx).flatMap (fun p =>
    (p.1.zip p.2).filterMap (fun q => if q.1 > 1/1000 then some q.2 else none))

/-- `np.unique`: the sorted distinct values. -/
def npUnique (l : List ℤ) : List ℤ := sortAsc l.dedup

/-- The `bone_visualization` branch (lines 202-214): one distinct colour
per dominant joint; vertices whose maximal weight is not above `0.001`, or
whose dominant bone is absent from the unique-bone table, keep the zero
colour. -/
def boneVisColors (w : List (List ℚ)) (idx : List (List ℤ)) : List (ℚ × ℚ × ℚ) :=
  let uniqueBones := npUnique (maskedIndices w idx)
  let boneColors := generateDistinctColors uniqueBones.length
  (w.zip idx).map (fun p =>
    let am := argmaxIdx p.1
    if p.1.getD am 0 > (1/1000 : ℚ) then
      match uniqueBones.findIdx? (fun b => b == p.2.getD am 0) with
      | some k => boneColors.getD k (0, 0, 0)
      | none => (0, 0, 0)
    else (0, 0, 0))

/-- The `bone_count` branch (lines 226-232): heat map of the per-vertex
count of weights above `0.001`, normalised by the maximal count; all-zero
colours when every count is zero. -/
def boneCountColors (w : List (List ℚ)) : List (ℚ × ℚ × ℚ) :=
  let counts := w.map (fun r => ((r.filter (fun x => x > 1/1000)).length : ℚ))
  let maxCount := listMaxQ counts
  if maxCount > 0 then heatMapColors (counts.map (fun c => c / maxCount))
  else w.map (fun _ => (0, 0, 0))

/-- The colour array computed by `generate_vertex_colors` for each mode
(lines 202-234): `weight_strength` maps the row sums, and
`dominant_bone_strength` the row maxima, through the heat map. -/
def vertexColorsFor (w : List (List ℚ)) (idx : List (List ℤ)) (mode : ColorMode) :
    List (ℚ × ℚ × ℚ) :=
  match mode with
  | .boneVisualization => boneVisColors w idx
  | .weightStrength => heatMapColors (w.map List.sum)
  | .dominantBoneStrength => heatMapColors (w.map listMaxQ)
  | .boneCount => boneCountColors w

/-- The full outcome of a `generate_vertex_colors` call over the mutable
NumPy arrays: the weight and index arrays as the call leaves them, plus the
returned colours. -/
structure VertexColorResult where
  bone_weights : List (List ℚ)
  bone_indices : List (List ℤ)
  colors : List (ℚ × ℚ × ℚ)

/-- Shallow embedding of `CapsuleSkinningSystem.generate_vertex_colors`
(src/capsule_skinning.py, lines 182-234), statement by statement: no
statement of the body writes into `bone_weights` or `bone_indices` (all
NumPy operations used are reads), so the arrays come back unchanged; the
`bone_names` parameter is never read by the body. -/
def generateVertexColors {α : Type} (bone_weights : List (List ℚ))
    (bone_indices : List (List ℤ)) (mode : ColorMode) (bone_names : Option α) :
    VertexColorResult :=
  { bone_weights := bone_weights, bone_indices := bone_indices,
    colors := vertexColorsFor bone_weights bone_indices mode }

end Capsule

namespace Capsule

/-- Lagrange identity for the componentwise cross product: the squared norm of
`a × b` is `‖a‖²·‖b‖² - (a·b)²`. -/
theorem sqNorm3_cross3 (a b : V3) :
    sqNorm3 (cross3 a b) = sqNorm3 a * sqNorm3 b - dot3 a b ^ 2 := by
  simp only [sqNorm3, cross3, dot3]; ring

/-- The cross product is orthogonal to its first factor. -/
theorem dot3_cross3_left (a b : V3) : dot3 (cross3 a b) a = 0 := by
  simp only [cross3, dot3]; ring

/-- Scalar multiples factor out of the first argument of `dot3`. -/
theorem dot3_smul_left (c : ℝ) (a b : V3) : dot3 (c • a) b = c * dot3 a b := by
  simp only [dot3, Prod.smul_fst, Prod.smul_snd, smul_eq_mul]; ring

/-- C1: the point-in-tapered-capsule test satisfies the exact contract of the
specification (degenerate segments behave as a sphere of the larger radius
about `p1`; otherwise the clamped projection defines `t`, the interpolated
radius `r(t) = radius_bottom + t·(radius_top - radius_bottom)`, and coverage
is distance-to-segment `≤ r(t)`); in particular, for `p1=(0,0,0)`,
`p2=(0,2,0)`, `radius_top=0.5`, `radius_bottom=1.0`, the point `(0.8,0.1,0)`
is covered and the point `(0.8,1.9,0)` is not. -/
theorem C1_point_in_tapered_capsule_contract :
    (∀ q p1 p2 rt rb, pointInTaperedCapsule q p1 p2 rt rb ↔
        specPointInTaperedCapsule q p1 p2 rt rb)
    ∧ pointInTaperedCapsule (4/5, 1/10, 0) (0, 0, 0) (0, 2, 0) (1/2) 1
    ∧ ¬ pointInTaperedCapsule (4/5, 19/10, 0) (0, 0, 0) (0, 2, 0) (1/2) 1 := by
  have hs4 : Real.sqrt 4 = 2 := by
    rw [show (4:ℝ) = 2 ^ 2 by norm_num, Real.sqrt_sq (by norm_num : (0:ℝ) ≤ 2)]
  have hs064 : Real.sqrt (16 / 25) = 4 / 5 := by
    rw [show (16/25 : ℝ) = (4/5) ^ 2 by norm_num,
      Real.sqrt_sq (by norm_num : (0:ℝ) ≤ 4/5)]
  refine ⟨?_, ?_, ?_⟩
  · intro q p1 p2 rt rb
    unfold pointInTaperedCapsule specPointInTaperedCapsule
    by_cases h : norm3 (p2 - p1) < 1e-8
    · simp only [if_pos h]
    · have hpos : (0:ℝ) < norm3 (p2 - p1) := by
        have h1 : (1e-8:ℝ) ≤ norm3 (p2 - p1) := not_lt.1 h
        have h2 : (0:ℝ) < 1e-8 := by norm_num
        linarith
      simp only [if_neg h, gt_iff_lt, if_pos hpos]
  · unfold pointInTaperedCapsule
    norm_num [dot3, sqNorm3, norm3, dist3, clampR, Prod.mk_sub_mk, Prod.mk_add_mk,
      Prod.smul_mk, smul_eq_mul, hs4, hs064, min_def, max_def]
  · unfold pointInTaperedCapsule
    norm_num [dot3, sqNorm3, norm3, dist3, clampR, Prod.mk_sub_mk, Prod.mk_add_mk,
      Prod.smul_mk, smul_eq_mul, hs4, hs064, min_def, max_def]

/-- C6: for unit vectors `from`, `to`, `calculate_swing_rotation` returns the
identity when `dot > 0.9999`; a 180° Rodrigues rotation about the normalised
cross product of `from` with the helper axis (`+X`, or `+Y` when `from` is
nearly on the X axis), an axis orthogonal to `from`, when `dot < -0.9999`;
and otherwise the Rodrigues matrix about the normalised `from × to` by angle
`acos(clamp(dot, -1, 1))`. -/
theorem C6_swing_rotation_cases (f t : V3) (hf : dot3 f f = 1) (ht : dot3 t t = 1) :
    (dot3 f t > 0.9999 → calculateSwingRotation f t = identity3)
    ∧ (dot3 f t < -0.9999 →
        calculateSwingRotation f t
          = axisAngleToMatrix
              ((1 / norm3 (cross3 f (swingHelperPerp f))) • cross3 f (swingHelperPerp f))
              Real.pi
        ∧ dot3 ((1 / norm3 (cross3 f (swingHelperPerp f))) • cross3 f (swingHelperPerp f)) f
            = 0)
    ∧ (-0.9999 ≤ dot3 f t → dot3 f t ≤ 0.9999 →
        calculateSwingRotation f t
          = axisAngleToMatrix ((1 / norm3 (cross3 f t)) • cross3 f t)
              (Real.arccos (max (-1) (min 1 (dot3 f t))))) := by
  have hf' : f.1 * f.1 + f.2.1 * f.2.1 + f.2.2 * f.2.2 = 1 := hf
  have hnf : norm3 f = 1 := by rw [norm3, sqNorm3, hf, Real.sqrt_one]
  have hnt : norm3 t = 1 := by rw [norm3, sqNorm3, ht, Real.sqrt_one]
  have hreduce : calculateSwingRotation f t
      = (if dot3 f t > 0.9999 then identity3
        else if dot3 f t < -0.9999 then
          (let axis := cross3 f (swingHelperPerp f)
          let axisLen := norm3 axis
          if axisLen > 0.001 then axisAngleToMatrix ((1 / axisLen) • axis) Real.pi
          else swingGeneralCase f t (dot3 f t))
        else swingGeneralCase f t (dot3 f t)) := by
    simp only [calculateSwingRotation, hnf, hnt, one_div_one, one_smul]
    rw [if_neg (by norm_num)]
  refine ⟨?_, ?_, ?_⟩
  · intro hd
    rw [hreduce, if_pos hd]
  · intro hd
    have hax : (0.001 : ℝ) < norm3 (cross3 f (swingHelperPerp f)) := by
      rw [norm3, Real.lt_sqrt (by norm_num), sqNorm3_cross3]
      unfold swingHelperPerp
      by_cases hx : |f.1| < 0.9
      · rw [if_pos hx]
        have h1 : dot3 f ((1, 0, 0) : V3) = f.1 := by simp [dot3]
        have h2 : sqNorm3 ((1, 0, 0) : V3) = 1 := by norm_num [sqNorm3, dot3]
        have h3 : sqNorm3 f = 1 := hf
        rw [h1, h2, h3]
        have h4 := abs_lt.mp hx
        nlinarith
      · rw [if_neg hx]
        have h1 : dot3 f ((0, 1, 0) : V3) = f.2.1 := by simp [dot3]
        have h2 : sqNorm3 ((0, 1, 0) : V3) = 1 := by norm_num [sqNorm3, dot3]
        have h3 : sqNorm3 f = 1 := hf
        rw [h1, h2, h3]
        have hx' : (0.9 : ℝ) ≤ |f.1| := not_lt.1 hx
        have h5 : (0.81 : ℝ) ≤ f.1 ^ 2 := by
          have := sq_abs f.1
          nlinarith [abs_nonneg f.1]
        nlinarith [sq_nonneg f.2.2]
    constructor
    · rw [hreduce, if_neg (by linarith), if_pos hd]
      simp only [gt_iff_lt]
      rw [if_pos hax]
    · rw [dot3_smul_left, dot3_cross3_left, mul_zero]
  · intro h1 h2
    rw [hreduce, if_neg (by linarith), if_neg (by linarith)]
    unfold swingGeneralCase
    have hax : ¬ (norm3 (cross3 f t) < 0.001) := by
      rw [not_lt, norm3]
      rw [Real.le_sqrt' (by norm_num)]
      rw [sqNorm3_cross3]
      have h3 : sqNorm3 f = 1 := hf
      have h4 : sqNorm3 t = 1 := ht
      rw [h3, h4]
      nlinarith
    rw [if_neg hax]

/-- Witness for C6 at the concrete unit vectors `+X`, `+Y` (the general case). -/
theorem C6_swing_rotation_cases_witness :
    dot3 ((1, 0, 0) : V3) ((1, 0, 0) : V3) = 1
    ∧ dot3 ((0, 1, 0) : V3) ((0, 1, 0) : V3) = 1
    ∧ calculateSwingRotation ((1, 0, 0) : V3) ((0, 1, 0) : V3)
        = axisAngleToMatrix
            ((1 / norm3 (cross3 ((1, 0, 0) : V3) ((0, 1, 0) : V3))) •
              cross3 ((1, 0, 0) : V3) ((0, 1, 0) : V3))
            (Real.arccos (max (-1) (min 1 (dot3 ((1, 0, 0) : V3) ((0, 1, 0) : V3))))) :=
  ⟨by norm_num [dot3], by norm_num [dot3],
    (C6_swing_rotation_cases (1, 0, 0) (0, 1, 0) (by norm_num [dot3])
        (by norm_num [dot3])).2.2
      (by norm_num [dot3]) (by norm_num [dot3])⟩

/-- Lengths of flat maps over ranges whose emissions all have length `k`. -/
theorem length_flatMap_range {α : Type} (n k : ℕ) (f : ℕ → List α)
    (h : ∀ i, (f i).length = k) : ((List.range n).flatMap f).length = n * k := by
  induction n with
  | zero => simp
  | succ m ih =>
    rw [List.range_succ, List.flatMap_append, List.length_append, ih]
    simp [h m, Nat.succ_mul]

/-- C7: for every capsule with positive length and positive radii, every
cylinder-body vertex of the tessellated mesh (default `segments = 16`)
satisfies the outward-normal property
`dot(normal, position - closestAxisPoint) > 0`, where the body normal is the
radial direction tilted by `slope = (radius2 - radius1) / length` and then
renormalised. -/
theorem C7_body_normal_outward (L r1 r2 : ℝ) (ring i : ℕ)
    (hL : 0 < L) (h1 : 0 < r1) (h2 : 0 < r2) (hring : ring ≤ cylinderRings) :
    0 < dot3 (bodyVertexNormal L r1 r2 16 i)
        (bodyVertexPos L r1 r2 16 ring i
          - closestAxisPoint (bodyVertexPos L r1 r2 16 ring i) L) := by
  have h8 : ((cylinderRings : ℕ) : ℝ) = 8 := by norm_num [cylinderRings]
  set th := (i : ℝ) * 2 * Real.pi / ((16 : ℕ) : ℝ) with hth
  set t := (ring : ℝ) / ((cylinderRings : ℕ) : ℝ) with ht
  have ht0 : 0 ≤ t := by rw [ht]; positivity
  have ht1 : t ≤ 1 := by
    rw [ht, h8, div_le_one (by norm_num)]
    have : (ring : ℝ) ≤ ((cylinderRings : ℕ) : ℝ) := by exact_mod_cast hring
    rw [h8] at this
    exact this
  set s := (r2 - r1) / L with hs
  have hcr : 0 < r1 + t * (r2 - r1) := by
    rcases le_total r1 r2 with h | h
    · have : 0 ≤ t * (r2 - r1) := mul_nonneg ht0 (by linarith)
      linarith
    · have : (r2 - r1) ≤ t * (r2 - r1) := by nlinarith
      linarith
  have hy0 : -(L / 2) ≤ -L / 2 + t * L := by nlinarith
  have hy1 : -L / 2 + t * L ≤ L / 2 := by nlinarith
  have hsum : Real.cos th * Real.cos th + s * s + Real.sin th * Real.sin th
      = 1 + s * s := by
    linear_combination Real.sin_sq_add_cos_sq th
  have hlen : 0 < Real.sqrt (Real.cos th * Real.cos th + s * s
      + Real.sin th * Real.sin th) := by
    rw [hsum]
    exact Real.sqrt_pos.2 (by nlinarith [sq_nonneg s])
  simp only [bodyVertexNormal, bodyVertexPos, closestAxisPoint, clampR, dot3,
    Prod.mk_sub_mk]
  rw [if_pos hL]
  rw [← hth, ← ht, ← hs]
  rw [if_pos hlen]
  rw [max_eq_left hy0, min_eq_left hy1]
  have hexp : Real.cos th
        / Real.sqrt (Real.cos th * Real.cos th + s * s + Real.sin th * Real.sin th)
        * ((r1 + t * (r2 - r1)) * Real.cos th - 0)
      + s / Real.sqrt (Real.cos th * Real.cos th + s * s + Real.sin th * Real.sin th)
        * (-L / 2 + t * L - (-L / 2 + t * L))
      + Real.sin th
        / Real.sqrt (Real.cos th * Real.cos th + s * s + Real.sin th * Real.sin th)
        * ((r1 + t * (r2 - r1)) * Real.sin th - 0)
      = (r1 + t * (r2 - r1)) * (Real.cos th * Real.cos th + Real.sin th * Real.sin th)
        / Real.sqrt (Real.cos th * Real.cos th + s * s + Real.sin th * Real.sin th) := by
    field_simp
    ring
  rw [hexp]
  have hcs2 : Real.cos th * Real.cos th + Real.sin th * Real.sin th = 1 := by
    linear_combination Real.sin_sq_add_cos_sq th
  rw [hcs2, mul_one]
  exact div_pos hcr hlen

/-- Witness for C7 at the unit capsule, bottom ring, first angular step. -/
theorem C7_body_normal_outward_witness :
    0 < dot3 (bodyVertexNormal 1 1 2 16 0)
        (bodyVertexPos 1 1 2 16 0 0
          - closestAxisPoint (bodyVertexPos 1 1 2 16 0 0) 1) :=
  C7_body_normal_outward 1 1 2 0 0 (by norm_num) (by norm_num) (by norm_num)
    (Nat.zero_le _)

/-- C10: for every positive length and nonnegative radii, the tessellated
capsule mesh at the default angular resolution (`segments = 16`) is
structurally well-formed: the normal array has exactly the length of the
position array, and every triangle index is a valid vertex index, below
`positions.length / 3`. -/
theorem C10_mesh_well_formed (L r1 r2 : ℝ) (hL : 0 < L) (h1 : 0 ≤ r1) (h2 : 0 ≤ r2) :
    ((generateCapsuleMesh L r1 r2 16).normals.length
        = (generateCapsuleMesh L r1 r2 16).vertices.length)
    ∧ ∀ ix ∈ (generateCapsuleMesh L r1 r2 16).indices,
        ix < (generateCapsuleMesh L r1 r2 16).vertices.length / 3 := by
  have hbp : (bodyPositions L r1 r2 16).length = 432 := by
    unfold bodyPositions
    have hin : ∀ ring : ℕ, ((List.range 16).flatMap (fun i =>
        let p := bodyVertexPos L r1 r2 16 ring i
        [p.1, p.2.1, p.2.2])).length = 48 :=
      fun ring => length_flatMap_range 16 3 _ (fun i => rfl)
    have h2 := length_flatMap_range (cylinderRings + 1) 48 _ hin
    simpa [cylinderRings] using h2
  have hbn : (bodyNormals L r1 r2 16).length = 432 := by
    unfold bodyNormals
    have hin : ∀ ring : ℕ, ((List.range 16).flatMap (fun i =>
        let n := bodyVertexNormal L r1 r2 16 i
        [n.1, n.2.1, n.2.2])).length = 48 :=
      fun ring => length_flatMap_range 16 3 _ (fun i => rfl)
    have h2 := length_flatMap_range (cylinderRings + 1) 48 _ hin
    simpa [cylinderRings] using h2
  have hhp : ∀ (yB r : ℝ) (phiOf : ℕ → ℝ),
      (hemiPositions yB r 16 8 phiOf).length = 384 := by
    intro yB r phiOf
    unfold hemiPositions
    have hin : ∀ j0 : ℕ, ((List.range 16).flatMap (fun i =>
        [r * Real.cos (phiOf (j0 + 1)) * Real.cos (thetaAngle 16 i),
         yB + r * Real.sin (phiOf (j0 + 1)),
         r * Real.cos (phiOf (j0 + 1)) * Real.sin (thetaAngle 16 i)])).length = 48 :=
      fun j0 => length_flatMap_range 16 3 _ (fun i => rfl)
    have h2 := length_flatMap_range 8 48 _ hin
    simpa using h2
  have hhn : ∀ (phiOf : ℕ → ℝ), (hemiNormals 16 8 phiOf).length = 384 := by
    intro phiOf
    unfold hemiNormals
    have hin : ∀ j0 : ℕ, ((List.range 16).flatMap (fun i =>
        [Real.cos (phiOf (j0 + 1)) * Real.cos (thetaAngle 16 i),
         Real.sin (phiOf (j0 + 1)),
         Real.cos (phiOf (j0 + 1)) * Real.sin (thetaAngle 16 i)])).length = 48 :=
      fun j0 => length_flatMap_range 16 3 _ (fun i => rfl)
    have h2 := length_flatMap_range 8 48 _ hin
    simpa using h2
  have hv : (generateCapsuleMesh L r1 r2 16).vertices.length = 1206 := by
    show (bodyPositions L r1 r2 16
        ++ [0, -L / 2, 0]
        ++ hemiPositions (-L / 2) r1 16 8 (bottomPhi 8)
        ++ hemiPositions (L / 2) r2 16 8 (topPhi 8)
        ++ [0, L / 2, 0]).length = 1206
    simp [List.length_append, hbp, hhp]
  have hn : (generateCapsuleMesh L r1 r2 16).normals.length = 1206 := by
    show (bodyNormals L r1 r2 16
        ++ [0, -1, 0]
        ++ hemiNormals 16 8 (bottomPhi 8)
        ++ hemiNormals 16 8 (topPhi 8)
        ++ [0, 1, 0]).length = 1206
    simp [List.length_append, hbn, hhn]
  constructor
  · rw [hv, hn]
  · rw [hv]
    show ∀ ix ∈ capsuleIndices 16, ix < 1206 / 3
    intro ix hix
    have hgoal : (1206 : ℕ) / 3 = 402 := by norm_num
    rw [hgoal]
    simp only [capsuleIndices, cylinderRings, List.mem_append, List.mem_flatMap,
      List.mem_range, List.mem_cons, List.not_mem_nil, or_false] at hix
    rcases hix with ((((((h | h) | h) | h) | h) | h) | h)
    · obtain ⟨ring, hring, hin⟩ := h
      obtain ⟨i, hi, hmem⟩ := hin
      omega
    · obtain ⟨i, hi, hmem⟩ := h
      omega
    · obtain ⟨i, hi, hmem⟩ := h
      omega
    · obtain ⟨j, hj, i, hi, hmem⟩ := h
      omega
    · obtain ⟨i, hi, hmem⟩ := h
      omega
    · obtain ⟨j, hj, i, hi, hmem⟩ := h
      omega
    · obtain ⟨i, hi, hmem⟩ := h
      omega

/-- Witness for C10 at the unit capsule. -/
theorem C10_mesh_well_formed_witness :
    ((generateCapsuleMesh 1 1 1 16).normals.length
        = (generateCapsuleMesh 1 1 1 16).vertices.length)
    ∧ ∀ ix ∈ (generateCapsuleMesh 1 1 1 16).indices,
        ix < (generateCapsuleMesh 1 1 1 16).vertices.length / 3 :=
  C10_mesh_well_formed 1 1 1 (by norm_num) (by norm_num) (by norm_num)

theorem insertIdxAsc_perm (w : List ℚ) (i : ℕ) (l : List ℕ) :
    (insertIdxAsc w i l).Perm (i :: l) := by
  induction l with
  | nil => simp [insertIdxAsc]
  | cons j js ih =>
    simp only [insertIdxAsc]
    split
    · exact List.Perm.refl _
    · exact (ih.cons j).trans (List.Perm.swap i j js)

theorem argsortDesc_perm (w : List ℚ) :
    (argsortDesc w).Perm (List.range w.length) := by
  have h : ∀ is : List ℕ, ((is.foldr (insertIdxAsc w) []).Perm is) := by
    intro is
    induction is with
    | nil => rfl
    | cons i is ih => exact (insertIdxAsc_perm w i _).trans (ih.cons i)
  exact (List.reverse_perm _).trans (h _)

theorem getD_le_sum (l : List ℚ) (h : ∀ x ∈ l, 0 ≤ x) (j : ℕ) (hj : j < l.length) :
    l.getD j 0 ≤ l.sum := by
  rw [List.getD_eq_getElem l 0 hj]
  exact List.single_le_sum h _ (List.getElem_mem hj)

theorem transferRowWeights_length (ow : List ℚ) :
    (transferRowWeights ow).length = maxInfluences := by
  simp [transferRowWeights]

theorem transferRowWeights_nonneg (ow : List ℚ) :
    ∀ x ∈ transferRowWeights ow, 0 ≤ x := by
  intro x hx
  simp only [transferRowWeights, List.mem_map, List.mem_range] at hx
  obtain ⟨j, hj, rfl⟩ := hx
  split
  · split
    · next hbig => linarith
    · exact le_refl 0
  · exact le_refl 0

theorem transferRowWeights_sum_big (ow : List ℚ) (hlen : ow.length ≤ maxInfluences)
    (hex : ∃ x ∈ ow, 1/1000 < x) :
    1/1000 < (transferRowWeights ow).sum := by
  obtain ⟨x, hx, hbig⟩ := hex
  rw [List.mem_iff_getElem] at hx
  obtain ⟨i0, hi0, hval⟩ := hx
  have hperm := argsortDesc_perm ow
  have hordlen : (argsortDesc ow).length = ow.length := by
    rw [hperm.length_eq, List.length_range]
  have hmem : i0 ∈ argsortDesc ow := hperm.mem_iff.2 (List.mem_range.2 hi0)
  rw [List.mem_iff_getElem] at hmem
  obtain ⟨j0, hj0, hj0val⟩ := hmem
  have hj04 : j0 < maxInfluences := lt_of_lt_of_le (hordlen ▸ hj0) hlen
  have hslot : (transferRowWeights ow).getD j0 0 = ow.getD i0 0 := by
    rw [List.getD_eq_getElem _ 0 (by rw [transferRowWeights_length]; exact hj04)]
    simp only [transferRowWeights, List.getElem_map, List.getElem_range]
    rw [if_pos (hordlen ▸ hj0 : j0 < (argsortDesc ow).length)]
    have hget : (argsortDesc ow).getD j0 0 = i0 := by
      rw [List.getD_eq_getElem _ 0 hj0, hj0val]
    rw [hget]
    rw [if_pos]
    rw [List.getD_eq_getElem ow 0 hi0, hval]
    exact hbig
  have hge : (transferRowWeights ow).getD j0 0 ≤ (transferRowWeights ow).sum :=
    getD_le_sum _ (transferRowWeights_nonneg ow) j0
      (by rw [transferRowWeights_length]; exact hj04)
  rw [hslot, List.getD_eq_getElem ow 0 hi0, hval] at hge
  linarith

theorem sum_map_div (l : List ℚ) (c : ℚ) :
    (l.map (fun x => x / c)).sum = l.sum / c := by
  induction l with
  | nil => simp
  | cons x xs ih => simp [ih, add_div]

theorem normalizeRow_length (row : List ℚ) :
    (normalizeRow row).length = row.length := by
  simp [normalizeRow]

theorem normalizeRow_good (row : List ℚ) (hn : ∀ x ∈ row, 0 ≤ x)
    (hs : 1/1000 < row.sum) :
    (normalizeRow row).sum = 1 ∧ ∀ x ∈ normalizeRow row, 0 ≤ x ∧ x ≤ 1 := by
  have hspos : (0:ℚ) < row.sum := by linarith
  have hmax : max row.sum (1/10000000000) = row.sum := max_eq_left (by linarith)
  constructor
  · show (row.map (fun w => w / max row.sum (1/10000000000))).sum = 1
    rw [hmax, sum_map_div, div_self (ne_of_gt hspos)]
  · intro x hx
    simp only [normalizeRow, hmax, List.mem_map] at hx
    obtain ⟨y, hy, rfl⟩ := hx
    constructor
    · exact div_nonneg (hn y hy) (le_of_lt hspos)
    · rw [div_le_one hspos]
      exact List.single_le_sum hn y hy

/-- Rows with nonnegative entries whose sum clears the `1e-10` guard are
normalised exactly to sum `1` with entries in `[0, 1]`. -/
theorem normalizeRow_good_safe (row : List ℚ) (hn : ∀ x ∈ row, 0 ≤ x)
    (hs : 1/10000000000 ≤ row.sum) :
    (normalizeRow row).sum = 1 ∧ ∀ x ∈ normalizeRow row, 0 ≤ x ∧ x ≤ 1 := by
  have hspos : (0:ℚ) < row.sum := lt_of_lt_of_le (by norm_num) hs
  have hmax : max row.sum (1/10000000000) = row.sum := max_eq_left hs
  constructor
  · show (row.map (fun w => w / max row.sum (1/10000000000))).sum = 1
    rw [hmax, sum_map_div, div_self (ne_of_gt hspos)]
  · intro x hx
    simp only [normalizeRow, hmax, List.mem_map] at hx
    obtain ⟨y, hy, rfl⟩ := hx
    exact ⟨div_nonneg (hn y hy) (le_of_lt hspos),
      by rw [div_le_one hspos]; exact List.single_le_sum hn y hy⟩

/-- `np.clip(-, 0, 1)` is the identity on rows already inside `[0, 1]`. -/
theorem clipRow_of_bounds (row : List ℚ) (h : ∀ x ∈ row, 0 ≤ x ∧ x ≤ 1) :
    clipRow row = row := by
  induction row with
  | nil => rfl
  | cons a l ih =>
    obtain ⟨h0, h1⟩ := h a (List.mem_cons_self a l)
    have ha : min (max a 0) 1 = a := by rw [max_eq_left h0, min_eq_left h1]
    simp only [clipRow, List.map_cons] at ih ⊢
    rw [ha, ih (fun x hx => h x (List.mem_cons_of_mem a hx))]

/-- The robust-laplacian post-processing keeps the invariant whenever the
external solve returns nonnegative rows clearing the `1e-10` guard. -/
theorem robustLaplacianPost_good (solved : List (List ℚ))
    (h : ∀ r ∈ solved, (∀ x ∈ r, 0 ≤ x) ∧ 1/10000000000 ≤ r.sum ∧ r.length ≤ 4) :
    ∀ row ∈ robustLaplacianPost solved,
      |row.sum - 1| < 1/1000000 ∧ (∀ x ∈ row, 0 ≤ x ∧ x ≤ 1) ∧ row.length ≤ 4 := by
  intro row hrow
  simp only [robustLaplacianPost, List.mem_map] at hrow
  obtain ⟨r, hr, rfl⟩ := hrow
  obtain ⟨hn, hs, hlen⟩ := h r hr
  obtain ⟨hsum, hbnd⟩ := normalizeRow_good_safe r hn hs
  rw [clipRow_of_bounds _ hbnd]
  refine ⟨by rw [hsum]; norm_num, hbnd, ?_⟩
  rw [normalizeRow_length]
  exact hlen

/-- A solver row with one negative component breaks the sum invariant: the
normalisation (sum `1`) happens before the clip, which then adds `1/10`. -/
theorem robustLaplacianPost_negative_breaks :
    ∃ row ∈ robustLaplacianPost [[1/2, 3/5, -(1/10), 0]],
      ¬ |row.sum - 1| < 1/1000000 := by
  refine ⟨[1/2, 3/5, 0, 0], ?_, ?_⟩
  · have he : robustLaplacianPost [[1/2, 3/5, -(1/10), 0]] = [[1/2, 3/5, 0, 0]] := by
      norm_num [robustLaplacianPost, normalizeRow, clipRow, min_def, max_def]
    rw [he]
    simp
  · have hv : ([(1:ℚ)/2, 3/5, 0, 0]).sum - 1 = 1/10 := by norm_num
    rw [hv, abs_of_nonneg (by norm_num : (0:ℚ) ≤ 1/10)]
    norm_num

theorem transfer_row_good (ow : List ℚ) (hlen : ow.length ≤ maxInfluences)
    (hex : ∃ x ∈ ow, 1/1000 < x) :
    goodRow (normalizeRow (transferRowWeights ow)) := by
  have hbig := transferRowWeights_sum_big ow hlen hex
  have hnn := transferRowWeights_nonneg ow
  obtain ⟨hsum, hbnds⟩ := normalizeRow_good _ hnn hbig
  exact ⟨by rw [normalizeRow_length, transferRowWeights_length], hsum, hbnds⟩



theorem addRows_length (a b : List ℚ) :
    (addRows a b).length = min a.length b.length := by
  simp [addRows]

theorem addRows_sum (a b : List ℚ) (h : a.length = b.length) :
    (addRows a b).sum = a.sum + b.sum := by
  induction a generalizing b with
  | nil =>
    cases b with
    | nil => simp [addRows]
    | cons y ys => simp at h
  | cons x xs ih =>
    cases b with
    | nil => simp at h
    | cons y ys =>
      simp only [addRows, List.zipWith_cons_cons, List.sum_cons]
      have := ih ys (by simpa using h)
      simp only [addRows] at this
      rw [this]
      ring

theorem scaleRow_length (c : ℚ) (r : List ℚ) : (scaleRow c r).length = r.length := by
  simp [scaleRow]

theorem scaleRow_sum (c : ℚ) (r : List ℚ) : (scaleRow c r).sum = c * r.sum := by
  induction r with
  | nil => simp [scaleRow]
  | cons x xs ih =>
    simp only [scaleRow, List.map_cons, List.sum_cons] at *
    rw [ih]
    ring

theorem sumRows_length (rows : List (List ℚ))
    (h : ∀ r ∈ rows, r.length = maxInfluences) :
    (sumRows rows).length = maxInfluences := by
  induction rows with
  | nil => simp [sumRows, maxInfluences]
  | cons r rs ih =>
    show (addRows r (sumRows rs)).length = maxInfluences
    rw [addRows_length, h r (by simp), ih (fun r' hr' => h r' (by simp [hr']))]
    simp

theorem sumRows_sum (rows : List (List ℚ))
    (h : ∀ r ∈ rows, r.length = maxInfluences) :
    (sumRows rows).sum = (rows.map List.sum).sum := by
  induction rows with
  | nil => simp [sumRows, maxInfluences]
  | cons r rs ih =>
    show (addRows r (sumRows rs)).sum = _
    rw [addRows_sum r _ (by
      rw [h r (by simp), sumRows_length rs (fun r' hr' => h r' (by simp [hr']))])]
    rw [ih (fun r' hr' => h r' (by simp [hr']))]
    simp

theorem addRows_getD (a b : List ℚ) (j : ℕ) (ha : j < a.length) (hb : j < b.length) :
    (addRows a b).getD j 0 = a.getD j 0 + b.getD j 0 := by
  rw [List.getD_eq_getElem _ 0 (by rw [addRows_length]; omega),
      List.getD_eq_getElem a 0 ha, List.getD_eq_getElem b 0 hb]
  simp [addRows]

theorem scaleRow_getD (c : ℚ) (r : List ℚ) (j : ℕ) (hj : j < r.length) :
    (scaleRow c r).getD j 0 = c * r.getD j 0 := by
  rw [List.getD_eq_getElem _ 0 (by rw [scaleRow_length]; omega),
      List.getD_eq_getElem r 0 hj]
  simp [scaleRow]

theorem sumRows_getD (rows : List (List ℚ))
    (h : ∀ r ∈ rows, r.length = maxInfluences) (j : ℕ) (hj : j < maxInfluences) :
    (sumRows rows).getD j 0 = (rows.map (fun r => r.getD j 0)).sum := by
  induction rows with
  | nil =>
    show (List.replicate maxInfluences (0:ℚ)).getD j 0 = _
    rw [List.getD_eq_getElem _ 0 (by simpa using hj)]
    simp
  | cons r rs ih =>
    show (addRows r (sumRows rs)).getD j 0 = _
    rw [addRows_getD r _ j (by rw [h r (by simp)]; exact hj)
      (by rw [sumRows_length rs (fun r' hr' => h r' (by simp [hr']))]; exact hj)]
    rw [ih (fun r' hr' => h r' (by simp [hr']))]
    simp

theorem mem_addRows (a b : List ℚ) (x : ℚ) (hx : x ∈ addRows a b) :
    ∃ j, j < a.length ∧ j < b.length ∧ x = a.getD j 0 + b.getD j 0 := by
  rw [List.mem_iff_getElem] at hx
  obtain ⟨j, hj, hval⟩ := hx
  rw [addRows_length] at hj
  have hja : j < a.length := by omega
  have hjb : j < b.length := by omega
  refine ⟨j, hja, hjb, ?_⟩
  rw [← hval, List.getD_eq_getElem a 0 hja, List.getD_eq_getElem b 0 hjb]
  simp [addRows]

theorem getD_mem_of_lt (l : List ℚ) (j : ℕ) (hj : j < l.length) : l.getD j 0 ∈ l := by
  rw [List.getD_eq_getElem l 0 hj]
  exact List.getElem_mem hj

theorem meanRows_good (rows : List (List ℚ)) (hne : rows ≠ [])
    (hall : ∀ r ∈ rows, goodRow r) : goodRow (meanRows rows) := by
  have h4 : ∀ r ∈ rows, r.length = maxInfluences := fun r hr => (hall r hr).1
  have hlenpos : 0 < rows.length := List.length_pos.2 hne
  have hcast : ((rows.length : ℚ)) ≠ 0 := by
    exact_mod_cast Nat.pos_iff_ne_zero.1 hlenpos
  have hcastpos : (0:ℚ) < (rows.length : ℚ) := by exact_mod_cast hlenpos
  have hmap : rows.map List.sum = List.replicate rows.length 1 := by
    have := List.eq_replicate_of_mem (l := rows.map List.sum) (a := (1:ℚ)) ?_
    · simpa using this
    · intro b hb
      simp only [List.mem_map] at hb
      obtain ⟨r, hr, rfl⟩ := hb
      exact (hall r hr).2.1
  refine ⟨?_, ?_, ?_⟩
  · show (scaleRow _ (sumRows rows)).length = _
    rw [scaleRow_length, sumRows_length rows h4]
  · show (scaleRow _ (sumRows rows)).sum = 1
    rw [scaleRow_sum, sumRows_sum rows h4, hmap]
    rw [List.sum_replicate]
    simp only [nsmul_eq_mul, mul_one]
    rw [one_div_mul_cancel hcast]
  · intro x hx
    simp only [meanRows, scaleRow, List.mem_map] at hx
    obtain ⟨y, hy, rfl⟩ := hx
    rw [List.mem_iff_getElem] at hy
    obtain ⟨j, hj, hval⟩ := hy
    rw [sumRows_length rows h4] at hj
    have hy' : (sumRows rows).getD j 0 = y := by
      rw [List.getD_eq_getElem _ 0 (by rw [sumRows_length rows h4]; exact hj), hval]
    have hform := sumRows_getD rows h4 j hj
    rw [hy'] at hform
    have hbnds : ∀ z ∈ rows.map (fun r => r.getD j 0), 0 ≤ z ∧ z ≤ 1 := by
      intro z hz
      simp only [List.mem_map] at hz
      obtain ⟨r, hr, rfl⟩ := hz
      have hjr : j < r.length := by rw [h4 r hr]; exact hj
      exact (hall r hr).2.2 _ (getD_mem_of_lt r j hjr)
    have hy0 : 0 ≤ y := by
      rw [hform]
      exact List.sum_nonneg (fun z hz => (hbnds z hz).1)
    have hyle : y ≤ (rows.length : ℚ) := by
      rw [hform]
      have := List.sum_le_card_nsmul (rows.map (fun r => r.getD j 0)) 1
        (fun z hz => (hbnds z hz).2)
      simpa [nsmul_eq_mul] using this
    constructor
    · exact mul_nonneg (by positivity) hy0
    · rw [one_div_mul_eq_div, div_le_one hcastpos]
      exact hyle



theorem normalizeRow_of_good (r : List ℚ) (h : goodRow r) : goodRow (normalizeRow r) := by
  have hb := normalizeRow_good r (fun x hx => (h.2.2 x hx).1) (by rw [h.2.1]; norm_num)
  exact ⟨by rw [normalizeRow_length, h.1], hb.1, hb.2⟩

theorem blended_good (w : List (List ℚ)) (hall : ∀ r ∈ w, goodRow r)
    (i : ℕ) (hi : i < w.length) (nbrs : List ℕ)
    (hn : ∀ j ∈ nbrs, j < w.length) (hne : nbrs ≠ []) :
    goodRow (addRows (scaleRow (7/10) (w.getD i []))
      (scaleRow (3/10) (meanRows (nbrs.map (fun j => w.getD j []))))) := by
  have hrowi : goodRow (w.getD i []) := by
    apply hall
    rw [List.getD_eq_getElem w [] hi]
    exact List.getElem_mem hi
  have hrows : ∀ r ∈ nbrs.map (fun j => w.getD j []), goodRow r := by
    intro r hr
    simp only [List.mem_map] at hr
    obtain ⟨j, hj, rfl⟩ := hr
    apply hall
    rw [List.getD_eq_getElem w [] (hn j hj)]
    exact List.getElem_mem _
  have hmapne : nbrs.map (fun j => w.getD j []) ≠ [] := by
    simpa using hne
  have hmean := meanRows_good _ hmapne hrows
  have hlen1 : (scaleRow (7/10) (w.getD i [])).length = maxInfluences := by
    rw [scaleRow_length, hrowi.1]
  have hlen2 : (scaleRow (3/10) (meanRows (nbrs.map (fun j => w.getD j [])))).length
      = maxInfluences := by
    rw [scaleRow_length, hmean.1]
  refine ⟨?_, ?_, ?_⟩
  · rw [addRows_length, hlen1, hlen2]
    simp
  · rw [addRows_sum _ _ (by rw [hlen1, hlen2]), scaleRow_sum, scaleRow_sum,
      hrowi.2.1, hmean.2.1]
    norm_num
  · intro x hx
    obtain ⟨j, hja, hjb, rfl⟩ := mem_addRows _ _ x hx
    rw [scaleRow_length] at hja hjb
    rw [scaleRow_getD _ _ _ hja, scaleRow_getD _ _ _ hjb]
    have hb1 := hrowi.2.2 _ (getD_mem_of_lt _ j hja)
    have hb2 := hmean.2.2 _ (getD_mem_of_lt _ j hjb)
    constructor
    · nlinarith [hb1.1, hb2.1]
    · nlinarith [hb1.2, hb2.2]

theorem smoothStep_length (faces : List (ℕ × ℕ × ℕ)) (w : List (List ℚ)) :
    (smoothStep faces w).length = w.length := by
  simp [smoothStep]

theorem adjacency_lt (faces : List (ℕ × ℕ × ℕ)) (n : ℕ)
    (hface : ∀ f ∈ faces, f.1 < n ∧ f.2.1 < n ∧ f.2.2 < n)
    (i j : ℕ) (hj : j ∈ adjacencyList faces i) : j < n := by
  simp only [adjacencyList, List.mem_dedup, List.mem_flatMap] at hj
  obtain ⟨f, hf, hjf⟩ := hj
  have hb := hface f hf
  simp only [faceNeighborLists, List.mem_append] at hjf
  rcases hjf with (h | h) | h <;>
    · split at h
      · simp only [List.mem_cons, List.mem_singleton, List.not_mem_nil, or_false] at h
        rcases h with rfl | rfl <;> omega
      · simp at h

theorem smoothStep_good (faces : List (ℕ × ℕ × ℕ)) (w : List (List ℚ))
    (hface : ∀ f ∈ faces, f.1 < w.length ∧ f.2.1 < w.length ∧ f.2.2 < w.length)
    (hall : ∀ r ∈ w, goodRow r) :
    ∀ r ∈ smoothStep faces w, goodRow r := by
  intro r hr
  simp only [smoothStep, List.mem_map, List.mem_range] at hr
  obtain ⟨b, ⟨i, hi, hbdef⟩, rfl⟩ := hr
  subst hbdef
  apply normalizeRow_of_good
  by_cases hc : 0 < (adjacencyList faces i).length
  · rw [if_pos hc]
    apply blended_good w hall i hi
    · exact fun j hj => adjacency_lt faces w.length hface i j hj
    · exact List.length_pos.1 hc
  · rw [if_neg hc]
    apply hall
    rw [List.getD_eq_getElem w [] hi]
    exact List.getElem_mem hi

theorem smooth_iterate_good (faces : List (ℕ × ℕ × ℕ)) (w : List (List ℚ))
    (hface : ∀ f ∈ faces, f.1 < w.length ∧ f.2.1 < w.length ∧ f.2.2 < w.length)
    (hall : ∀ r ∈ w, goodRow r) (n : ℕ) :
    (∀ r ∈ (smoothStep faces)^[n] w, goodRow r)
      ∧ ((smoothStep faces)^[n] w).length = w.length := by
  induction n with
  | zero => exact ⟨hall, rfl⟩
  | succ m ih =>
    rw [Function.iterate_succ_apply']
    refine ⟨?_, by rw [smoothStep_length, ih.2]⟩
    apply smoothStep_good
    · rw [ih.2]
      exact hface
    · exact ih.1



/-- C2 (amended): every weight row produced by the transfer step followed by
any number of iterative smoothing passes satisfies `|sum - 1| < 1e-6`, all
weights in `[0, 1]` and at most 4 entries, provided every capsule vertex's
nearest source vertex carries at least one weight above `0.001` (source rows
have at most 4 slots and faces index existing vertices).  Vertices whose
nearest source vertex has no weight above `0.001` are excluded: they end
with the all-zero row of `C2_zero_influence_counterexample`.  On the
robust-laplacian path the in-repo post-processing (normalise by
`max(sum, 1e-10)`, then clip to `[0, 1]` -- in that order) keeps the same
invariant whenever the external solve returns nonnegative rows of at most 4
entries clearing the `1e-10` guard; but a solver row with a negative
component breaks `|sum - 1| < 1e-6`, because the clip happens after the
normalisation. -/
theorem C2_weight_invariant_amended (cv ov : List Q3) (ow : List (List ℚ)) (oi : List (List ℤ))
    (faces : List (ℕ × ℕ × ℕ)) (iters : ℕ)
    (hwide : ∀ r ∈ ow, r.length ≤ maxInfluences)
    (hnz : ∀ q ∈ cv, ∃ x ∈ ow.getD (closestIdx q ov) [], 1/1000 < x)
    (hface : ∀ f ∈ faces, f.1 < cv.length ∧ f.2.1 < cv.length ∧ f.2.2 < cv.length) :
    (∀ row ∈ smoothWeightsSimple cv faces
        (transferWeightsClosestPoint cv ov ow oi).1 iters,
      |row.sum - 1| < 1/1000000 ∧ (∀ x ∈ row, 0 ≤ x ∧ x ≤ 1) ∧ row.length ≤ 4)
    ∧ (∀ solved : List (List ℚ),
        (∀ r ∈ solved, (∀ x ∈ r, 0 ≤ x) ∧ 1/10000000000 ≤ r.sum ∧ r.length ≤ 4) →
        ∀ row ∈ robustLaplacianPost solved,
          |row.sum - 1| < 1/1000000 ∧ (∀ x ∈ row, 0 ≤ x ∧ x ≤ 1) ∧ row.length ≤ 4)
    ∧ (∃ row ∈ robustLaplacianPost [[1/2, 3/5, -(1/10), 0]],
        ¬ |row.sum - 1| < 1/1000000) := by
  refine ⟨?_, robustLaplacianPost_good, robustLaplacianPost_negative_breaks⟩
  have htrlen : (transferWeightsClosestPoint cv ov ow oi).1.length = cv.length := by
    simp [transferWeightsClosestPoint]
  have htr : ∀ r ∈ (transferWeightsClosestPoint cv ov ow oi).1, goodRow r := by
    intro r hr
    simp only [transferWeightsClosestPoint, List.mem_map] at hr
    obtain ⟨q, hq, rfl⟩ := hr
    apply transfer_row_good
    · rcases lt_or_ge (closestIdx q ov) ow.length with h | h
      · apply hwide
        rw [List.getD_eq_getElem ow [] h]
        exact List.getElem_mem h
      · rw [List.getD_eq_default]
        · simp [maxInfluences]
        · exact h
    · exact hnz q hq
  have hkey := smooth_iterate_good faces _ (by rw [htrlen]; exact hface) htr iters
  intro row hrow
  simp only [smoothWeightsSimple] at hrow
  have hg := hkey.1 row hrow
  refine ⟨?_, hg.2.2, ?_⟩
  · rw [hg.2.1]
    norm_num
  · rw [hg.1]
    simp [maxInfluences]

/-- Witness for the amended C2 at a one-vertex mesh with weights
`[1/2, 1/4, 1/4, 0]` and one smoothing pass, together with the
robust-laplacian post-processing conclusions. -/
theorem C2_weight_invariant_amended_witness :
    (∀ r ∈ [[(1:ℚ)/2, 1/4, 1/4, 0]], r.length ≤ maxInfluences)
    ∧ (∀ q ∈ [((0:ℚ), 0, 0)], ∃ x ∈ ([[(1:ℚ)/2, 1/4, 1/4, 0]]).getD
          (closestIdx q [((0:ℚ), 0, 0)]) [], 1/1000 < x)
    ∧ (∀ f ∈ ([] : List (ℕ × ℕ × ℕ)),
        f.1 < ([((0:ℚ), 0, 0)] : List Q3).length
        ∧ f.2.1 < ([((0:ℚ), 0, 0)] : List Q3).length
        ∧ f.2.2 < ([((0:ℚ), 0, 0)] : List Q3).length)
    ∧ ((∀ row ∈ smoothWeightsSimple [((0:ℚ), 0, 0)] []
          (transferWeightsClosestPoint [((0:ℚ), 0, 0)] [((0:ℚ), 0, 0)]
            [[(1:ℚ)/2, 1/4, 1/4, 0]] [[0, 1, 2, 3]]).1 1,
        |row.sum - 1| < 1/1000000 ∧ (∀ x ∈ row, 0 ≤ x ∧ x ≤ 1) ∧ row.length ≤ 4)
      ∧ (∀ solved : List (List ℚ),
          (∀ r ∈ solved, (∀ x ∈ r, 0 ≤ x) ∧ 1/10000000000 ≤ r.sum ∧ r.length ≤ 4) →
          ∀ row ∈ robustLaplacianPost solved,
            |row.sum - 1| < 1/1000000 ∧ (∀ x ∈ row, 0 ≤ x ∧ x ≤ 1) ∧ row.length ≤ 4)
      ∧ (∃ row ∈ robustLaplacianPost [[1/2, 3/5, -(1/10), 0]],
          ¬ |row.sum - 1| < 1/1000000)) := by
  have hc : closestIdx ((0:ℚ), 0, 0) [((0:ℚ), 0, 0)] = 0 := by
    norm_num [closestIdx, sqDistQ, argminIdx]
  have h1 : ∀ r ∈ [[(1:ℚ)/2, 1/4, 1/4, 0]], r.length ≤ maxInfluences := by
    intro r hr
    simp only [List.mem_singleton] at hr
    subst hr
    simp [maxInfluences]
  have h2 : ∀ q ∈ [((0:ℚ), 0, 0)], ∃ x ∈ ([[(1:ℚ)/2, 1/4, 1/4, 0]]).getD
      (closestIdx q [((0:ℚ), 0, 0)]) [], 1/1000 < x := by
    intro q hq
    simp only [List.mem_singleton] at hq
    subst hq
    rw [hc]
    exact ⟨1/2, by norm_num, by norm_num⟩
  have h3 : ∀ f ∈ ([] : List (ℕ × ℕ × ℕ)),
      f.1 < ([((0:ℚ), 0, 0)] : List Q3).length
      ∧ f.2.1 < ([((0:ℚ), 0, 0)] : List Q3).length
      ∧ f.2.2 < ([((0:ℚ), 0, 0)] : List Q3).length := by
    intro f hf
    simp at hf
  exact ⟨h1, h2, h3, C2_weight_invariant_amended _ _ _ _ _ 1 h1 h2 h3⟩

/-- C4: the result parser divides the solver's fixed-point scale factor out
of every decoded quantity (position components, length, both radii) whenever
the scale factor is at least 1; the auto-detected factor for a marked output
is 1000; and the line with scale factor 1000 and encoded position
`(-84000, 792000, -5000)` decodes to position `(-84, 792, -5)` with
length/radii likewise divided by 1000. -/
theorem C4_parser_divides_scale (scale px py pz ln r1 r2 : ℚ) (hs : 1 ≤ scale) :
    (decodeCapsuleLine scale px py pz ln r1 r2
      = { px := px / scale, py := py / scale, pz := pz / scale,
          len := ln / scale, radius1 := r1 / scale, radius2 := r2 / scale })
    ∧ determineScaleFactor none true = 1000
    ∧ (decodeCapsuleLine 1000 (-84000) 792000 (-5000) 422000 164000 164000
        = { px := -84, py := 792, pz := -5, len := 422, radius1 := 164, radius2 := 164 }) := by
  refine ⟨?_, rfl, by norm_num [decodeCapsuleLine, CapsuleLineData.mk.injEq]⟩
  unfold decodeCapsuleLine
  rcases lt_or_eq_of_le hs with h | h
  · rw [if_pos h]
  · rw [if_neg (by rw [← h]; exact lt_irrefl 1)]
    rw [← h]
    simp

/-- Witness for C4 at the concrete scenario line. -/
theorem C4_parser_divides_scale_witness :
    (1 : ℚ) ≤ 1000
    ∧ (decodeCapsuleLine 1000 (-84000) 792000 (-5000) 422000 164000 164000
        = { px := -84000 / 1000, py := 792000 / 1000, pz := -5000 / 1000,
            len := 422000 / 1000, radius1 := 164000 / 1000, radius2 := 164000 / 1000 })
    ∧ determineScaleFactor none true = 1000 :=
  ⟨by norm_num,
    (C4_parser_divides_scale 1000 (-84000) 792000 (-5000) 422000 164000 164000 (by norm_num)).1,
    (C4_parser_divides_scale 1000 (-84000) 792000 (-5000) 422000 164000 164000 (by norm_num)).2.1⟩

/-- Values of `getD` at in-range indices do not depend on the default. -/
theorem getD_default_irrel {α : Type} (l : List α) (d d' : α) (j : ℕ)
    (h : j < l.length) : l.getD j d = l.getD j d' := by
  rw [List.getD_eq_getElem _ _ h, List.getD_eq_getElem _ _ h]

/-- `argminIdx` returns the first index attaining the minimum. -/
theorem argminIdx_isFirstMin (l : List ℝ) (h : l ≠ []) :
    isFirstMinIdx l (argminIdx l) := by
  induction l with
  | nil => exact absurd rfl h
  | cons x xs ih =>
    by_cases hxs : xs = []
    · subst hxs
      refine ⟨by simp [argminIdx], ?_, ?_⟩
      · intro j hj
        simp only [List.length_singleton] at hj
        have hj0 : j = 0 := by omega
        subst hj0
        simp [argminIdx]
      · intro j hj
        simp [argminIdx] at hj
    · have ⟨ihlt, ihmin, ihfirst⟩ := ih hxs
      show isFirstMinIdx (x :: xs) (argminIdx (x :: xs))
      rw [argminIdx]
      have hgd : xs.getD (argminIdx xs) x = xs.getD (argminIdx xs) 0 :=
        getD_default_irrel xs x 0 _ ihlt
      by_cases hc : x ≤ xs.getD (argminIdx xs) x
      · rw [if_pos hc]
        rw [hgd] at hc
        refine ⟨by simp, ?_, ?_⟩
        · intro j hj
          cases j with
          | zero => simp
          | succ n =>
            simp only [List.getD_cons_zero, List.getD_cons_succ]
            exact le_trans hc (ihmin n (by simpa using hj))
        · intro j hj
          omega
      · rw [if_neg hc]
        rw [hgd] at hc
        push_neg at hc
        refine ⟨by simpa using ihlt, ?_, ?_⟩
        · intro j hj
          cases j with
          | zero =>
            simp only [List.getD_cons_succ, List.getD_cons_zero]
            exact le_of_lt hc
          | succ n =>
            simp only [List.getD_cons_succ]
            exact ihmin n (by simpa using hj)
        · intro j hj
          cases j with
          | zero =>
            simp only [List.getD_cons_succ, List.getD_cons_zero]
            exact hc
          | succ n =>
            simp only [List.getD_cons_succ]
            exact ihfirst n (by omega)

/-- `argmaxIdx` returns the first index attaining the maximum. -/
theorem argmaxIdx_isFirstMax (l : List ℝ) (h : l ≠ []) :
    isFirstMaxIdx l (argmaxIdx l) := by
  induction l with
  | nil => exact absurd rfl h
  | cons x xs ih =>
    by_cases hxs : xs = []
    · subst hxs
      refine ⟨by simp [argmaxIdx], ?_, ?_⟩
      · intro j hj
        simp only [List.length_singleton] at hj
        have hj0 : j = 0 := by omega
        subst hj0
        simp [argmaxIdx]
      · intro j hj
        simp [argmaxIdx] at hj
    · have ⟨ihlt, ihmax, ihfirst⟩ := ih hxs
      show isFirstMaxIdx (x :: xs) (argmaxIdx (x :: xs))
      rw [argmaxIdx]
      have hgd : xs.getD (argmaxIdx xs) x = xs.getD (argmaxIdx xs) 0 :=
        getD_default_irrel xs x 0 _ ihlt
      by_cases hc : xs.getD (argmaxIdx xs) x ≤ x
      · rw [if_pos hc]
        rw [hgd] at hc
        refine ⟨by simp, ?_, ?_⟩
        · intro j hj
          cases j with
          | zero => simp
          | succ n =>
            simp only [List.getD_cons_zero, List.getD_cons_succ]
            exact le_trans (ihmax n (by simpa using hj)) hc
        · intro j hj
          omega
      · rw [if_neg hc]
        rw [hgd] at hc
        push_neg at hc
        refine ⟨by simpa using ihlt, ?_, ?_⟩
        · intro j hj
          cases j with
          | zero =>
            simp only [List.getD_cons_succ, List.getD_cons_zero]
            exact le_of_lt hc
          | succ n =>
            simp only [List.getD_cons_succ]
            exact ihmax n (by simpa using hj)
        · intro j hj
          cases j with
          | zero =>
            simp only [List.getD_cons_succ, List.getD_cons_zero]
            exact hc
          | succ n =>
            simp only [List.getD_cons_succ]
            exact ihfirst n (by omega)




/-- C3 (amended): a cluster with fewer than 3 points makes the external PCA
raise, which the caller catches, skipping the cluster without a crash and
without a capsule; but a cluster of exactly 3 points, and a cluster of
coincident points, are accepted and DO emit a capsule candidate — no
`InsufficientGeometry` condition exists. -/
theorem C3_insufficient_geometry_amended :
    (∀ (vertices : List V3) (axis : V3), vertices.length < 3 →
        generateCandidateCapsule vertices axis = none)
    ∧ (generateCandidateCapsule [((0:ℝ), 0, 0), (1, 0, 0), (0, 1, 0)]
        (1, 0, 0)).isSome = true
    ∧ (generateCandidateCapsule [((1:ℝ), 1, 1), (1, 1, 1), (1, 1, 1), (1, 1, 1)]
        (1, 0, 0)).isSome = true := by
  refine ⟨?_, ?_, ?_⟩
  · intro vertices axis h
    rw [generateCandidateCapsule, if_pos h]
  · rw [generateCandidateCapsule, if_neg (by norm_num)]
    rfl
  · rw [generateCandidateCapsule, if_neg (by norm_num)]
    rfl

/-- Witness for the amended C3 at a 1-point cluster. -/
theorem C3_insufficient_geometry_amended_witness :
    ([((0:ℝ), 0, 0)] : List V3).length < 3
    ∧ generateCandidateCapsule [((0:ℝ), 0, 0)] (0, 1, 0) = none :=
  ⟨by norm_num, C3_insufficient_geometry_amended.1 [((0:ℝ), 0, 0)] (0, 1, 0) (by norm_num)⟩

/-- C3 counterexample: the fitter, given a cluster of exactly 3
non-degenerate points, emits a capsule candidate instead of failing with an
`InsufficientGeometry` condition. -/
theorem C3_three_point_cluster_counterexample :
    (generateCandidateCapsule [((0:ℝ), 0, 0), (0, 2, 0), (2, 0, 0)]
        (1, 0, 0)).isSome = true := by
  rw [generateCandidateCapsule, if_neg (by norm_num)]
  rfl

/-- C8 (amended): for every nonempty cluster, the fitter sets `radius_top`
and `radius_bottom` both to the 90th percentile (numpy linear interpolation)
of the points' perpendicular distances to the infinite line through `p1`
along the normalised `p2 - p1` direction — the projection parameter is not
clamped to the segment — and it chooses `p1` and `p2` as the first points in
input order attaining the minimal and maximal projection onto the principal
axis. -/
theorem C8_fitter_radius_amended (vertices : List V3) (axis : V3) (h : vertices ≠ []) :
    (fitCapsuleFromHull vertices axis).radius_top
        = (fitCapsuleFromHull vertices axis).radius_bottom
    ∧ (fitCapsuleFromHull vertices axis).radius_top
        = percentile90 (lineDistances vertices (fitCapsuleFromHull vertices axis).p1
            (fitDirection vertices axis))
    ∧ isFirstMinIdx (vertices.map (fun v => dot3 v axis))
        (argminIdx (vertices.map (fun v => dot3 v axis)))
    ∧ isFirstMaxIdx (vertices.map (fun v => dot3 v axis))
        (argmaxIdx (vertices.map (fun v => dot3 v axis)))
    ∧ (fitCapsuleFromHull vertices axis).p1
        = vertices.getD (argminIdx (vertices.map (fun v => dot3 v axis))) (0, 0, 0)
    ∧ (fitCapsuleFromHull vertices axis).p2
        = vertices.getD (argmaxIdx (vertices.map (fun v => dot3 v axis))) (0, 0, 0) := by
  have hmapne : vertices.map (fun v => dot3 v axis) ≠ [] := by simpa using h
  exact ⟨rfl, rfl, argminIdx_isFirstMin _ hmapne, argmaxIdx_isFirstMax _ hmapne,
    rfl, rfl⟩



theorem c8_sum : sumV3 c8pts = (83/5, 9, 0) := by
  simp only [sumV3, c8pts, List.foldr_cons, List.foldr_nil, Prod.mk_add_mk]
  norm_num

theorem c8_mean : meanV3 c8pts = (83/45, 1, 0) := by
  rw [meanV3, c8_sum]
  norm_num [c8pts, Prod.smul_mk, smul_eq_mul, Prod.mk.injEq]

theorem c8_projVariance_eval (a b c : ℝ) :
    projVariance c8pts (a, b, c) = 5981/225 * a^2 + 390937/16200 * b^2 := by
  simp only [projVariance, c8_mean]
  simp only [c8pts, List.map_cons, List.map_nil, List.sum_cons, List.sum_nil,
    Prod.mk_sub_mk, dot3]
  ring

theorem c8_max_part : ∀ u : V3, sqNorm3 u = 1 →
    projVariance c8pts u ≤ projVariance c8pts (1, 0, 0)
    ∧ (projVariance c8pts u = projVariance c8pts (1, 0, 0) →
        u = ((1:ℝ), 0, 0) ∨ u = ((-1:ℝ), 0, 0)) := by
  rintro ⟨a, b, c⟩ hu
  simp only [sqNorm3, dot3] at hu
  rw [c8_projVariance_eval, c8_projVariance_eval]
  constructor
  · nlinarith [sq_nonneg b, sq_nonneg c]
  · intro heq
    have hb2 : b^2 = 0 := by nlinarith [sq_nonneg b, sq_nonneg c]
    have hc2 : c^2 = 0 := by nlinarith [sq_nonneg b, sq_nonneg c]
    have hb : b = 0 := sq_eq_zero_iff.mp hb2
    have hc : c = 0 := sq_eq_zero_iff.mp hc2
    have ha : (a - 1) * (a + 1) = 0 := by nlinarith
    rcases mul_eq_zero.mp ha with h | h
    · exact Or.inl (by simp [hb, hc]; linarith)
    · exact Or.inr (by simp [hb, hc]; linarith)

theorem c8_eval_pos :
    (fitCapsuleFromHull c8pts ((1:ℝ), 0, 0)).radius_top
      ≠ percentile90 (segmentDistances c8pts
          (fitCapsuleFromHull c8pts ((1:ℝ), 0, 0)).p1
          (fitDirection c8pts ((1:ℝ), 0, 0))
          (fitCapsuleFromHull c8pts ((1:ℝ), 0, 0)).height) := by
  have hproj : c8pts.map (fun v => dot3 v ((1:ℝ), 0, 0))
      = [0, 4, 7/10, 37/10, 7/2, 1/5, 1/2, 19/5, 1/5] := by
    norm_num [c8pts, dot3]
  have hargmin : argminIdx [(0:ℝ), 4, 7/10, 37/10, 7/2, 1/5, 1/2, 19/5, 1/5] = 0 := by
    norm_num [argminIdx]
  have hargmax : argmaxIdx [(0:ℝ), 4, 7/10, 37/10, 7/2, 1/5, 1/2, 19/5, 1/5] = 1 := by
    norm_num [argmaxIdx]
  have hend : fitEndpoints c8pts ((1:ℝ), 0, 0) = ((0, 0, 0), (4, 3, 0)) := by
    simp only [fitEndpoints, hproj, hargmin, hargmax]
    norm_num [c8pts]
  have hs25 : Real.sqrt 25 = 5 := by
    rw [show (25:ℝ) = 5 ^ 2 by norm_num, Real.sqrt_sq (by norm_num : (0:ℝ) ≤ 5)]
  have hh : norm3 ((((4:ℝ), 3, 0) : V3) - ((0:ℝ), 0, 0)) = 5 := by
    norm_num [norm3, sqNorm3, dot3, Prod.mk_sub_mk, hs25]
  have hdir : fitDirection c8pts ((1:ℝ), 0, 0) = (4/5, 3/5, 0) := by
    simp only [fitDirection, hend]
    rw [hh, if_pos (by norm_num : (5:ℝ) > 0)]
    norm_num [Prod.mk_sub_mk, Prod.smul_mk, smul_eq_mul, Prod.mk.injEq]
  have hs0 : Real.sqrt 0 = 0 := Real.sqrt_zero
  have hsA : Real.sqrt (13689 / 2500) = 117 / 50 := by
    rw [show (13689/2500 : ℝ) = (117/50) ^ 2 by norm_num,
      Real.sqrt_sq (by norm_num : (0:ℝ) ≤ 117/50)]
  have hsB : Real.sqrt (11449 / 2500) = 107 / 50 := by
    rw [show (11449/2500 : ℝ) = (107/50) ^ 2 by norm_num,
      Real.sqrt_sq (by norm_num : (0:ℝ) ≤ 107/50)]
  have hsC : Real.sqrt (7921 / 2500) = 89 / 50 := by
    rw [show (7921/2500 : ℝ) = (89/50) ^ 2 by norm_num,
      Real.sqrt_sq (by norm_num : (0:ℝ) ≤ 89/50)]
  have hsD : Real.sqrt (8836 / 2025) = 94 / 45 := by
    rw [show (8836/2025 : ℝ) = (94/45) ^ 2 by norm_num,
      Real.sqrt_sq (by norm_num : (0:ℝ) ≤ 94/45)]
  have hsE : Real.sqrt (4761 / 2500) = 69 / 50 := by
    rw [show (4761/2500 : ℝ) = (69/50) ^ 2 by norm_num,
      Real.sqrt_sq (by norm_num : (0:ℝ) ≤ 69/50)]
  have hsF : Real.sqrt (158404 / 50625) = 398 / 225 := by
    rw [show (158404/50625 : ℝ) = (398/225) ^ 2 by norm_num,
      Real.sqrt_sq (by norm_num : (0:ℝ) ≤ 398/225)]
  have hsG : Real.sqrt (81 / 25) = 9 / 5 := by
    rw [show (81/25 : ℝ) = (9/5) ^ 2 by norm_num,
      Real.sqrt_sq (by norm_num : (0:ℝ) ≤ 9/5)]
  have hsH : Real.sqrt (25 / 4) = 5 / 2 := by
    rw [show (25/4 : ℝ) = (5/2) ^ 2 by norm_num,
      Real.sqrt_sq (by norm_num : (0:ℝ) ≤ 5/2)]
  have hld : lineDistances c8pts ((0:ℝ), 0, 0) ((4:ℝ)/5, 3/5, 0)
      = [0, 0, 117/50, 107/50, 89/50, 94/45, 69/50, 398/225, 9/5] := by
    norm_num [lineDistances, c8pts, dot3, Prod.mk_sub_mk, Prod.mk_add_mk,
      Prod.smul_mk, smul_eq_mul, norm3, sqNorm3, hs0, hsA, hsB, hsC, hsD, hsE,
      hsF, hsG]
  have hperc : percentile90 [(0:ℝ), 0, 117/50, 107/50, 89/50, 94/45, 69/50, 398/225, 9/5]
      = 109/50 := by
    norm_num [percentile90, sortAsc, insertAsc]
  have hrt : (fitCapsuleFromHull c8pts ((1:ℝ), 0, 0)).radius_top = 109/50 := by
    show percentile90 (lineDistances c8pts (fitEndpoints c8pts ((1:ℝ), 0, 0)).1
      (fitDirection c8pts ((1:ℝ), 0, 0))) = 109/50
    rw [hend, hdir]
    show percentile90 (lineDistances c8pts ((0:ℝ), 0, 0) ((4:ℝ)/5, 3/5, 0)) = 109/50
    rw [hld, hperc]
  have hp1 : (fitCapsuleFromHull c8pts ((1:ℝ), 0, 0)).p1 = (0, 0, 0) := by
    show (fitEndpoints c8pts ((1:ℝ), 0, 0)).1 = (0, 0, 0)
    rw [hend]
  have hh5 : (fitCapsuleFromHull c8pts ((1:ℝ), 0, 0)).height = 5 := by
    show norm3 ((fitEndpoints c8pts ((1:ℝ), 0, 0)).2
      - (fitEndpoints c8pts ((1:ℝ), 0, 0)).1) = 5
    rw [hend]
    exact hh
  have hsd : segmentDistances c8pts ((0:ℝ), 0, 0) ((4:ℝ)/5, 3/5, 0) 5
      = [0, 0, 5/2, 107/50, 89/50, 94/45, 69/50, 398/225, 9/5] := by
    norm_num [segmentDistances, c8pts, dot3, clampR, Prod.mk_sub_mk, Prod.mk_add_mk,
      Prod.smul_mk, smul_eq_mul, norm3, sqNorm3, hs0, hsB, hsC, hsD, hsE,
      hsF, hsG, hsH, min_def, max_def]
  have hperc2 : percentile90 [(0:ℝ), 0, 5/2, 107/50, 89/50, 94/45, 69/50, 398/225, 9/5]
      = 553/250 := by
    norm_num [percentile90, sortAsc, insertAsc]
  rw [hrt, hp1, hh5, hdir, hsd, hperc2]
  norm_num

theorem c8_eval_neg :
    (fitCapsuleFromHull c8pts ((-1:ℝ), 0, 0)).radius_top
      ≠ percentile90 (segmentDistances c8pts
          (fitCapsuleFromHull c8pts ((-1:ℝ), 0, 0)).p1
          (fitDirection c8pts ((-1:ℝ), 0, 0))
          (fitCapsuleFromHull c8pts ((-1:ℝ), 0, 0)).height) := by
  have hproj : c8pts.map (fun v => dot3 v ((-1:ℝ), 0, 0))
      = [0, -4, -(7/10), -(37/10), -(7/2), -(1/5), -(1/2), -(19/5), -(1/5)] := by
    norm_num [c8pts, dot3]
  have hargmin : argminIdx [(0:ℝ), -4, -(7/10), -(37/10), -(7/2), -(1/5), -(1/2),
      -(19/5), -(1/5)] = 1 := by
    norm_num [argminIdx]
  have hargmax : argmaxIdx [(0:ℝ), -4, -(7/10), -(37/10), -(7/2), -(1/5), -(1/2),
      -(19/5), -(1/5)] = 0 := by
    norm_num [argmaxIdx]
  have hend : fitEndpoints c8pts ((-1:ℝ), 0, 0) = ((4, 3, 0), (0, 0, 0)) := by
    simp only [fitEndpoints, hproj, hargmin, hargmax]
    norm_num [c8pts]
  have hs25 : Real.sqrt 25 = 5 := by
    rw [show (25:ℝ) = 5 ^ 2 by norm_num, Real.sqrt_sq (by norm_num : (0:ℝ) ≤ 5)]
  have hh : norm3 ((((0:ℝ), 0, 0) : V3) - ((4:ℝ), 3, 0)) = 5 := by
    norm_num [norm3, sqNorm3, dot3, Prod.mk_sub_mk, hs25]
  have hdir : fitDirection c8pts ((-1:ℝ), 0, 0) = (-(4/5), -(3/5), 0) := by
    simp only [fitDirection, hend]
    rw [hh, if_pos (by norm_num : (5:ℝ) > 0)]
    norm_num [Prod.mk_sub_mk, Prod.smul_mk, smul_eq_mul, Prod.mk.injEq]
  have hs0 : Real.sqrt 0 = 0 := Real.sqrt_zero
  have hsA : Real.sqrt (13689 / 2500) = 117 / 50 := by
    rw [show (13689/2500 : ℝ) = (117/50) ^ 2 by norm_num,
      Real.sqrt_sq (by norm_num : (0:ℝ) ≤ 117/50)]
  have hsB : Real.sqrt (11449 / 2500) = 107 / 50 := by
    rw [show (11449/2500 : ℝ) = (107/50) ^ 2 by norm_num,
      Real.sqrt_sq (by norm_num : (0:ℝ) ≤ 107/50)]
  have hsC : Real.sqrt (7921 / 2500) = 89 / 50 := by
    rw [show (7921/2500 : ℝ) = (89/50) ^ 2 by norm_num,
      Real.sqrt_sq (by norm_num : (0:ℝ) ≤ 89/50)]
  have hsD : Real.sqrt (8836 / 2025) = 94 / 45 := by
    rw [show (8836/2025 : ℝ) = (94/45) ^ 2 by norm_num,
      Real.sqrt_sq (by norm_num : (0:ℝ) ≤ 94/45)]
  have hsE : Real.sqrt (4761 / 2500) = 69 / 50 := by
    rw [show (4761/2500 : ℝ) = (69/50) ^ 2 by norm_num,
      Real.sqrt_sq (by norm_num : (0:ℝ) ≤ 69/50)]
  have hsF : Real.sqrt (158404 / 50625) = 398 / 225 := by
    rw [show (158404/50625 : ℝ) = (398/225) ^ 2 by norm_num,
      Real.sqrt_sq (by norm_num : (0:ℝ) ≤ 398/225)]
  have hsG : Real.sqrt (81 / 25) = 9 / 5 := by
    rw [show (81/25 : ℝ) = (9/5) ^ 2 by norm_num,
      Real.sqrt_sq (by norm_num : (0:ℝ) ≤ 9/5)]
  have hsH : Real.sqrt (25 / 4) = 5 / 2 := by
    rw [show (25/4 : ℝ) = (5/2) ^ 2 by norm_num,
      Real.sqrt_sq (by norm_num : (0:ℝ) ≤ 5/2)]
  have hld : lineDistances c8pts ((4:ℝ), 3, 0) (-((4:ℝ)/5), -(3/5), 0)
      = [0, 0, 117/50, 107/50, 89/50, 94/45, 69/50, 398/225, 9/5] := by
    norm_num [lineDistances, c8pts, dot3, Prod.mk_sub_mk, Prod.mk_add_mk,
      Prod.smul_mk, smul_eq_mul, norm3, sqNorm3, hs0, hsA, hsB, hsC, hsD, hsE,
      hsF, hsG]
  have hperc : percentile90 [(0:ℝ), 0, 117/50, 107/50, 89/50, 94/45, 69/50, 398/225, 9/5]
      = 109/50 := by
    norm_num [percentile90, sortAsc, insertAsc]
  have hrt : (fitCapsuleFromHull c8pts ((-1:ℝ), 0, 0)).radius_top = 109/50 := by
    show percentile90 (lineDistances c8pts (fitEndpoints c8pts ((-1:ℝ), 0, 0)).1
      (fitDirection c8pts ((-1:ℝ), 0, 0))) = 109/50
    rw [hend, hdir]
    show percentile90 (lineDistances c8pts ((4:ℝ), 3, 0) (-((4:ℝ)/5), -(3/5), 0)) = 109/50
    rw [hld, hperc]
  have hp1 : (fitCapsuleFromHull c8pts ((-1:ℝ), 0, 0)).p1 = (4, 3, 0) := by
    show (fitEndpoints c8pts ((-1:ℝ), 0, 0)).1 = (4, 3, 0)
    rw [hend]
  have hh5 : (fitCapsuleFromHull c8pts ((-1:ℝ), 0, 0)).height = 5 := by
    show norm3 ((fitEndpoints c8pts ((-1:ℝ), 0, 0)).2
      - (fitEndpoints c8pts ((-1:ℝ), 0, 0)).1) = 5
    rw [hend]
    exact hh
  have hsd : segmentDistances c8pts ((4:ℝ), 3, 0) (-((4:ℝ)/5), -(3/5), 0) 5
      = [0, 0, 5/2, 107/50, 89/50, 94/45, 69/50, 398/225, 9/5] := by
    norm_num [segmentDistances, c8pts, dot3, clampR, Prod.mk_sub_mk, Prod.mk_add_mk,
      Prod.smul_mk, smul_eq_mul, norm3, sqNorm3, hs0, hsB, hsC, hsD, hsE,
      hsF, hsG, hsH, min_def, max_def]
  have hperc2 : percentile90 [(0:ℝ), 0, 5/2, 107/50, 89/50, 94/45, 69/50, 398/225, 9/5]
      = 553/250 := by
    norm_num [percentile90, sortAsc, insertAsc]
  rw [hrt, hp1, hh5, hdir, hsd, hperc2]
  norm_num

/-- C8 counterexample: on the 9-point cluster `c8pts` the direction
`(1, 0, 0)` maximises the projection variance over all unit vectors -- and,
up to the sign that `sklearn` leaves unspecified, is the only maximiser --
yet for either sign of that principal axis the fitted radius (the 90th
percentile of the unclamped line distances, `109/50`) differs from the 90th
percentile of the clamped segment distances that the claim describes
(`553/250`): the third cluster point projects negatively onto the fitted
direction, so only clamping pulls its distance up to `5/2`. -/
theorem C8_segment_distance_counterexample :
    (∀ u : V3, sqNorm3 u = 1 →
        projVariance c8pts u ≤ projVariance c8pts (1, 0, 0)
        ∧ (projVariance c8pts u = projVariance c8pts (1, 0, 0) →
            u = ((1:ℝ), 0, 0) ∨ u = ((-1:ℝ), 0, 0)))
    ∧ ∀ a : V3, a = ((1:ℝ), 0, 0) ∨ a = ((-1:ℝ), 0, 0) →
        (fitCapsuleFromHull c8pts a).radius_top
          ≠ percentile90 (segmentDistances c8pts
              (fitCapsuleFromHull c8pts a).p1
              (fitDirection c8pts a)
              (fitCapsuleFromHull c8pts a).height) := by
  refine ⟨c8_max_part, ?_⟩
  rintro a (rfl | rfl)
  · exact c8_eval_pos
  · exact c8_eval_neg

/-- Witness for the amended C8 at a 1-point cluster. -/
theorem C8_fitter_radius_amended_witness :
    ([((0:ℝ), 0, 0)] : List V3) ≠ []
    ∧ ((fitCapsuleFromHull [((0:ℝ), 0, 0)] (0, 1, 0)).radius_top
        = (fitCapsuleFromHull [((0:ℝ), 0, 0)] (0, 1, 0)).radius_bottom)
    ∧ isFirstMinIdx ([((0:ℝ), 0, 0)].map (fun v => dot3 v (0, 1, 0)))
        (argminIdx ([((0:ℝ), 0, 0)].map (fun v => dot3 v (0, 1, 0)))) :=
  ⟨by simp, (C8_fitter_radius_amended [((0:ℝ), 0, 0)] (0, 1, 0) (by simp)).1,
    (C8_fitter_radius_amended [((0:ℝ), 0, 0)] (0, 1, 0) (by simp)).2.2.1⟩

/-- C9: vertex-colour generation in all four modes is a pure function of the
bone-weight and bone-index data: the weight and index arrays come back
unchanged, the colours equal a function of the weights, indices and mode
alone, and the output does not depend on the `bone_names` argument. -/
theorem C9_vertex_colors_pure {α β : Type} (w : List (List ℚ)) (idx : List (List ℤ))
    (mode : ColorMode) (names : Option α) (names' : Option β) :
    (generateVertexColors w idx mode names).bone_weights = w
    ∧ (generateVertexColors w idx mode names).bone_indices = idx
    ∧ (generateVertexColors w idx mode names).colors = vertexColorsFor w idx mode
    ∧ (generateVertexColors w idx mode names).colors
        = (generateVertexColors w idx mode names').colors :=
  ⟨rfl, rfl, rfl, rfl⟩

/-- C5: smoothing is idempotent at the boundary: the iterative fallback with
0 iterations returns its input weights unchanged, and the
transfer-and-smooth pipeline with 0 smoothing iterations returns exactly the
transferred weights (the smoothing stage leaves them untouched), for every
input and every smoothing function. -/
theorem C5_smoothing_zero_iterations_identity :
    (∀ (cv : List Q3) (faces : List (ℕ × ℕ × ℕ)) (w : List (List ℚ)),
      smoothWeightsSimple cv faces w 0 = w)
    ∧ ∀ (smoothFn : List (List ℚ) → List (List ℚ)) (cv ov : List Q3)
        (ow : List (List ℚ)) (oi : List (List ℤ)),
      transferAndSmoothCapsuleWeights smoothFn cv ov ow oi 0
        = transferWeightsClosestPoint cv ov ow oi :=
  ⟨fun _ _ _ => rfl, fun _ _ _ _ _ => rfl⟩

/-- C2 counterexample: a capsule vertex whose nearest source vertex carries
only weights equal to `0.001` (none strictly above the drop threshold) ends
the transfer with an all-zero weight row, and one pass of the iterative
smoothing keeps it all-zero, so its weight sum is 0, violating
`|sum - 1| < 1e-6`. -/
theorem C2_zero_influence_counterexample :
    smoothWeightsSimple [((0:ℚ), 0, 0)] []
        ((transferWeightsClosestPoint [((0:ℚ), 0, 0)] [((0:ℚ), 0, 0)]
          [[1/1000, 1/1000, 1/1000, 1/1000]] [[0, 1, 2, 3]]).1) 1
      = [[0, 0, 0, 0]]
    ∧ ¬ |([(0:ℚ), 0, 0, 0] : List ℚ).sum - 1| < 1 / 1000000 := by
  have hsort : argsortDesc [1/1000, 1/1000, 1/1000, 1/1000] = [3, 2, 1, 0] := by
    norm_num [argsortDesc, argsortAsc, insertIdxAsc, List.range_succ]
  have h1 : transferRowWeights [1/1000, 1/1000, 1/1000, 1/1000] = [0, 0, 0, 0] := by
    norm_num [transferRowWeights, hsort, maxInfluences, List.range_succ]
  have h2 : normalizeRow [0, 0, 0, 0] = [(0:ℚ), 0, 0, 0] := by
    norm_num [normalizeRow]
  have h3 : (transferWeightsClosestPoint [((0:ℚ), 0, 0)] [((0:ℚ), 0, 0)]
      [[1/1000, 1/1000, 1/1000, 1/1000]] [[0, 1, 2, 3]]).1 = [[0, 0, 0, 0]] := by
    norm_num [transferWeightsClosestPoint, closestIdx, sqDistQ, argminIdx, h1, h2]
  have h4 : smoothStep [] [[(0:ℚ), 0, 0, 0]] = [[0, 0, 0, 0]] := by
    norm_num [smoothStep, adjacencyList, List.range_succ, h2]
  constructor
  · rw [h3]
    show (smoothStep [])^[1] [[(0:ℚ), 0, 0, 0]] = [[0, 0, 0, 0]]
    rw [Function.iterate_one, h4]
  · norm_num

end Capsule
